import Mathlib

/-!
# Analytics pipeline: ingestion gateway, aggregation worker, reporting service

A shallow embedding of the three services of the repository

* `services/ingestion/src/index.js`  (`POST /event`),
* `services/processor/src/worker.js` (the consume loop of `main`),
* `services/reporting/src/index.js`  (`GET /stats`),

together with the part of the document store they rely on: the `$inc` update
operator addressed by a dotted field path, upserts, and `countDocuments`.

JavaScript `Date` is a parameter of the model (`JsDate`): the services only
ask whether a value converts to a valid date and for its ISO-8601 rendering.
A call of the store either is answered or throws a fault before it takes
effect; which of the two happens is an input of the worker's iteration.
-/

namespace Analytics

/-! ## JSON values and JavaScript truthiness -/

mutual
/-- A JSON value as delivered by `express.json()`; numbers are integers. -/
inductive JVal where
  | null : JVal
  | bool (b : Bool) : JVal
  | num (n : Int) : JVal
  | str (s : String) : JVal
  | arr (items : JItems) : JVal
  | obj (fields : JFields) : JVal
  deriving DecidableEq
/-- The elements of a JSON array. -/
inductive JItems where
  | nil : JItems
  | cons (head : JVal) (tail : JItems) : JItems
  deriving DecidableEq
/-- The properties of a JSON object, in source order. -/
inductive JFields where
  | nil : JFields
  | cons (key : String) (value : JVal) (rest : JFields) : JFields
  deriving DecidableEq
end

/-- Whether a JSON object has an own property of the given name. -/
def JFields.hasKey : JFields → String → Bool
  | .nil, _ => false
  | .cons k _ rest, key => decide (k = key) || rest.hasKey key

/-- JavaScript `ToBoolean` on a JSON value. -/
def JVal.truthy : JVal → Bool
  | .null => false
  | .bool b => b
  | .num n => decide (n ≠ 0)
  | .str s => decide (s ≠ "")
  | .arr _ => true
  | .obj _ => true

/-- JavaScript `ToBoolean` on a field that may be `undefined`. -/
def truthy? : Option JVal → Bool
  | none => false
  | some v => v.truthy

/-- JavaScript `ToBoolean` on a string or `null`/`undefined` field. -/
def strTruthy : Option String → Bool
  | none => false
  | some s => decide (s ≠ "")

/-- What `new Date(v)` does: it gives a date with a time value, it gives
`Invalid Date` (`getTime()` is `NaN`), or the conversion of `v` to a primitive
throws. -/
inductive DateResult (τ : Type) where
  | valid (t : τ) : DateResult τ
  | invalid : DateResult τ
  | throws : DateResult τ
  deriving DecidableEq

/-- The two operations of JavaScript `Date` used by the services: `parse v` is
`new Date(v)` and `toISOString` renders a time value. A string is a primitive
already, so its conversion never throws (`parse_str`). -/
structure JsDate (τ : Type) where
  parse : JVal → DateResult τ
  toISOString : τ → String
  parse_str : ∀ s : String, parse (.str s) ≠ .throws

/-! ## Documents and the `$inc` operator -/

/-- An ordered document whose fields hold either an integer or an embedded
document: the shape of the `paths` field of a stats document. -/
inductive Doc where
  | nil : Doc
  | num (key : String) (n : Int) (rest : Doc) : Doc
  | sub (key : String) (d : Doc) (rest : Doc) : Doc
  deriving DecidableEq, Repr

/-- The value of a document field. -/
inductive Field where
  | count (n : Int) : Field
  | nested (d : Doc) : Field
  deriving DecidableEq, Repr

/-- Field access `doc[key]` (`none` is `undefined`). -/
def Doc.get : Doc → String → Option Field
  | .nil, _ => none
  | .num k n rest, key => if k = key then some (.count n) else rest.get key
  | .sub k d rest, key => if k = key then some (.nested d) else rest.get key

/-- The fields of a document in the order the store keeps them. -/
def Doc.fields : Doc → List (String × Field)
  | .nil => []
  | .num k n rest => (k, .count n) :: rest.fields
  | .sub k d rest => (k, .nested d) :: rest.fields

/-- The value of a string of decimal digits, `none` when another character
occurs; the digits read so far are in `acc`. -/
def digitsValue (acc : Nat) : List Char → Option Nat
  | [] => some acc
  | c :: cs =>
    if 48 ≤ c.toNat ∧ c.toNat ≤ 57 then digitsValue (10 * acc + (c.toNat - 48)) cs
    else none

/-- The array index a property key stands for: the key is the canonical
decimal form of an integer from 0 to 2^32 - 2. -/
def arrayIndex? (k : String) : Option Nat :=
  match k.data with
  | [] => none
  | c :: cs =>
    if c = '0' ∧ cs ≠ [] then none
    else (digitsValue 0 (c :: cs)).bind (fun n => if n ≤ 4294967294 then some n else none)

/-- The order in which JavaScript lists the own properties of an object built
from the given fields: the array-index keys in ascending numeric order, then
the other keys in the order of the fields. -/
def ownPropertyOrder {α : Type} (fields : List (String × α)) : List (String × α) :=
  (fields.filter (fun f => (arrayIndex? f.1).isSome)).insertionSort
      (fun a b => (arrayIndex? a.1).getD 0 ≤ (arrayIndex? b.1).getD 0)
    ++ fields.filter (fun f => (arrayIndex? f.1).isNone)

/-- The entries of a document as JavaScript lists them (`Object.entries`). -/
def Doc.entries (d : Doc) : List (String × Field) :=
  ownPropertyOrder d.fields

/-- Split a field path at every `'.'` (the store's dot notation). -/
def splitDots : List Char → List (List Char)
  | [] => [[]]
  | c :: cs =>
    if c = '.' then [] :: splitDots cs
    else
      match splitDots cs with
      | [] => [[c]]
      | h :: t => (c :: h) :: t

/-- The components of a dotted field path. -/
def fieldPath (s : String) : List String :=
  (splitDots s.data).map String.mk

/-- The document `{k₁: {k₂: … {kₙ: n}}}` created by `$inc` on a missing path. -/
def Doc.chain : List String → Int → Doc
  | [], _ => .nil
  | [k], n => .num k n .nil
  | k :: k' :: ks, n => .sub k (Doc.chain (k' :: ks) n) .nil

/-- The store's `$inc` by `delta` at a path of field names: a missing field is
created (with its embedded documents), a numeric field is incremented;
descending into a number and incrementing an embedded document are rejected
(`none`). -/
def Doc.incAt (delta : Int) : List String → Doc → Option Doc
  | [], _ => none
  | k :: ks, .nil => some (Doc.chain (k :: ks) delta)
  | k :: ks, .num k' n rest =>
    if k' = k then
      (if ks = [] then some (.num k' (n + delta) rest) else none)
    else (Doc.incAt delta (k :: ks) rest).map (Doc.num k' n)
  | k :: ks, .sub k' d rest =>
    if k' = k then
      (if ks = [] then none else (Doc.incAt delta ks d).map (fun d' => Doc.sub k' d' rest))
    else (Doc.incAt delta (k :: ks) rest).map (Doc.sub k' d)

/-- The update `{$inc: {[path]: delta}}` with `path` in dot notation; a path
with an empty field name is rejected. Other restrictions of the store on
field names (a leading `$`) are not modelled. -/
def Doc.inc (delta : Int) (path : String) (d : Doc) : Option Doc :=
  if (fieldPath path).any (fun k => decide (k = "")) then none
  else Doc.incAt delta (fieldPath path) d

/-! ## The document store -/

/-- A document of the `events` collection. -/
structure RawEvent where
  event_id : String
  site_id : String
  event_type : String
  path : String
  user_id : Option String
  timestamp : Option String
  date : Option String
  deriving DecidableEq, Repr

/-- A document of the `stats` collection (DailyStat). -/
structure StatDoc where
  site_id : String
  date : Option String
  total_views : Int
  paths : Doc
  deriving DecidableEq, Repr

/-- A document of the `unique_users` collection (UniqueUserMark). -/
structure UserMark where
  site_id : String
  date : Option String
  user_id : String
  first_seen : String
  deriving DecidableEq, Repr

/-- The three collections of the `analytics` database. The worker declares a
unique index on `unique_users` only; `events` has none, and its documents
get a fresh `_id` each. -/
structure Store where
  events : List RawEvent
  stats : List StatDoc
  unique_users : List UserMark
  deriving DecidableEq, Repr

/-- The store before any event was processed. -/
def Store.empty : Store := ⟨[], [], []⟩

/-- The query `statsCol.findOne({site_id, date})`. -/
def findStat (stats : List StatDoc) (site_id : String) (date : Option String) : Option StatDoc :=
  stats.find? (fun s => decide (s.site_id = site_id ∧ s.date = date))

/-- The effect of `{$inc: {total_views: 1, ["paths." + pathKey]: 1}}` on one
stats document; the update is atomic, so a rejected path leaves nothing
changed (`none`). -/
def incStat (pathKey : String) (s : StatDoc) : Option StatDoc :=
  (Doc.inc 1 pathKey s.paths).map
    (fun p => { s with total_views := s.total_views + 1, paths := p })

/-- The call `statsCol.updateOne({site_id, date}, {$inc: …}, {upsert: true})`:
the first matching document is updated; without a match a document is created
from the filter and the update applied to it. `none` when the store rejects
the update. -/
def upsertStat (site_id : String) (date : Option String) (pathKey : String) :
    List StatDoc → Option (List StatDoc)
  | [] => (incStat pathKey ⟨site_id, date, 0, .nil⟩).map (fun s => [s])
  | s :: rest =>
    if s.site_id = site_id ∧ s.date = date then
      (incStat pathKey s).map (fun s' => s' :: rest)
    else (upsertStat site_id date pathKey rest).map (fun r => s :: r)

/-- The call `uniqueUsersCol.updateOne(key, {$setOnInsert: …}, {upsert: true})`:
a no-op when a mark with the key exists, an insert otherwise. -/
def upsertUser (site_id : String) (date : Option String) (user_id : String)
    (first_seen : String) (marks : List UserMark) : List UserMark :=
  if marks.any (fun m => decide (m.site_id = site_id ∧ m.date = date ∧ m.user_id = user_id))
  then marks
  else marks ++ [⟨site_id, date, user_id, first_seen⟩]

/-- The query `uniqueUsersCol.countDocuments({site_id, date})`. -/
def countDocuments (marks : List UserMark) (site_id : String) (date : Option String) : Nat :=
  (marks.filter (fun m => decide (m.site_id = site_id ∧ m.date = date))).length

/-! ## The aggregation worker (`worker.js`) -/

/-- The function `isoDate(dateStr)`: the UTC calendar day of a timestamp,
`null` when it does not parse. -/
def isoDate {τ : Type} (D : JsDate τ) (dateStr : String) : Option String :=
  match D.parse (.str dateStr) with
  | .valid d => some (String.mk ((D.toISOString d).data.take 10))
  | _ => none

/-- The parsed queue payload. -/
structure Event where
  id : String
  site_id : String
  event_type : String
  path : Option String
  user_id : Option String
  timestamp : Option String
  deriving DecidableEq, Repr

/-- What a call of the store does besides its effect: it is answered, or it
throws a fault (the store is unreachable, the primary stepped down) before
taking effect. A duplicate-key error is no fault and never arises here:
`events` has no unique index, and an upsert by the full key of the one on
`unique_users` matches the existing mark instead of inserting. -/
inductive Answer where
  | ok : Answer
  | fault : Answer
  deriving DecidableEq, Repr

/-- The answers of the store to the three calls of one iteration:
`eventsCol.insertOne`, `statsCol.updateOne` and `uniqueUsersCol.updateOne`. -/
structure Answers where
  insert : Answer
  update : Answer
  upsert : Answer
  deriving DecidableEq, Repr

/-- The store answers every call. -/
def Answers.allOk : Answers := ⟨.ok, .ok, .ok⟩

/-- How one iteration of the consume loop ends: it runs to its end, or an
exception reaches the loop-level `catch` (log, then pause). -/
inductive Outcome where
  | completed : Outcome
  | loopError : Outcome
  deriving DecidableEq, Repr

/-- The result of one iteration: how it ended and the store it leaves. -/
structure StepResult where
  outcome : Outcome
  store : Store
  deriving DecidableEq, Repr

/-- The date of an event: `isoDate(event.timestamp || new Date().toISOString())`. -/
def eventDate {τ : Type} (D : JsDate τ) (now : String) (e : Event) : Option String :=
  isoDate D (if strTruthy e.timestamp then e.timestamp.getD now else now)

/-- The path key `(event.path || '/').toString()`. -/
def pathKey (e : Event) : String :=
  if strTruthy e.path then e.path.getD "/" else "/"

/-- The raw document `eventsCol.insertOne` is given for an event. -/
def rawEvent {τ : Type} (D : JsDate τ) (now : String) (e : Event) : RawEvent :=
  ⟨e.id, e.site_id, e.event_type, pathKey e,
    if strTruthy e.user_id then e.user_id else none, e.timestamp, eventDate D now e⟩

/-- One iteration of the consume loop of `main` on a dequeued, parsed event
(worker.js lines 42–77). `now` is the reading of the worker's clock and `a`
the answers of the store. A fault of the raw insert or of the stats update,
and a stats update the store rejects, reach the loop-level `catch`; a fault of
the unique-user upsert is caught on the spot and the iteration runs to its
end without a mark. -/
def workerStep {τ : Type} (D : JsDate τ) (now : String) (a : Answers)
    (e : Event) (S : Store) : StepResult :=
  let date := eventDate D now e
  let pathKey := pathKey e
  match a.insert with
  | .fault => ⟨.loopError, S⟩
  | .ok =>
    let events := S.events ++ [rawEvent D now e]
    let updated :=
      match a.update with
      | .fault => none
      | .ok => upsertStat e.site_id date pathKey S.stats
    match updated with
    | none => ⟨.loopError, { S with events := events }⟩
    | some stats =>
      if strTruthy e.user_id then
        match a.upsert with
        | .ok =>
          ⟨.completed,
            ⟨events, stats, upsertUser e.site_id date (e.user_id.getD "") now S.unique_users⟩⟩
        | .fault => ⟨.completed, ⟨events, stats, S.unique_users⟩⟩
      else ⟨.completed, ⟨events, stats, S.unique_users⟩⟩

/-- One dequeued item together with what the environment does while it is
processed: the clock reading and the answers of the store. -/
structure Delivery where
  now : String
  answers : Answers
  event : Event
  deriving DecidableEq, Repr

/-- The store after the consume loop has handled the deliveries in order. -/
def run {τ : Type} (D : JsDate τ) : List Delivery → Store → Store
  | [], S => S
  | d :: ds, S => run D ds (workerStep D d.now d.answers d.event S).store

/-- The events of a run whose iteration ran to its end (the processed events),
each with the date it was filed under. -/
def processed {τ : Type} (D : JsDate τ) :
    List Delivery → Store → List (Event × Option String)
  | [], _ => []
  | d :: ds, S =>
    if (workerStep D d.now d.answers d.event S).outcome = .completed then
      (d.event, eventDate D d.now d.event) ::
        processed D ds (workerStep D d.now d.answers d.event S).store
    else processed D ds (workerStep D d.now d.answers d.event S).store

/-- The processed events of a run whose unique-user upsert the store answered,
each with the date it was filed under. -/
def answered {τ : Type} (D : JsDate τ) :
    List Delivery → Store → List (Event × Option String)
  | [], _ => []
  | d :: ds, S =>
    if (workerStep D d.now d.answers d.event S).outcome = .completed ∧
        d.answers.upsert = .ok then
      (d.event, eventDate D d.now d.event) ::
        answered D ds (workerStep D d.now d.answers d.event S).store
    else answered D ds (workerStep D d.now d.answers d.event S).store

/-- The user ids carried by the events of a log filed under `(site_id, date)`. -/
def observedUsers (log : List (Event × Option String)) (site_id : String)
    (date : Option String) : List String :=
  log.filterMap (fun ed =>
    if strTruthy ed.1.user_id ∧ ed.1.site_id = site_id ∧ ed.2 = date then ed.1.user_id
    else none)

/-- The user ids of the marks filed under `(site_id, date)`. -/
def keyUsers (marks : List UserMark) (site_id : String) (date : Option String) : List String :=
  (marks.filter (fun m => decide (m.site_id = site_id ∧ m.date = date))).map UserMark.user_id

/-- The sum of all integer leaves of a document, embedded documents included. -/
def Doc.leafSum : Doc → Int
  | .nil => 0
  | .num _ n rest => n + rest.leafSum
  | .sub _ d rest => d.leafSum + rest.leafSum

/-- The sum of the view counts of the entries of a paths object: an entry that
holds an embedded document carries no view count. -/
def Doc.viewsSum : Doc → Int
  | .nil => 0
  | .num _ n rest => n + rest.viewsSum
  | .sub _ _ rest => rest.viewsSum

/-! ## The ingestion gateway (`POST /event`) -/

/-- The fields the handler destructures from `req.body`; `none` is `undefined`. -/
structure Body where
  site_id : Option JVal
  event_type : Option JVal
  path : Option JVal
  user_id : Option JVal
  timestamp : Option JVal
  deriving DecidableEq

/-- The event object serialised onto the queue. -/
structure QueuedEvent where
  id : String
  site_id : JVal
  event_type : JVal
  path : JVal
  user_id : JVal
  timestamp : String
  deriving DecidableEq

/-- The HTTP answer of the gateway. -/
inductive Reply where
  | accepted (event_id : String) : Reply
  | badRequest (error : String) : Reply
  | internalError : Reply
  deriving DecidableEq, Repr

/-- The status code of an answer. -/
def Reply.status : Reply → Nat
  | .accepted _ => 202
  | .badRequest _ => 400
  | .internalError => 500

/-- The expression `x || null` on a field that may be `undefined`. -/
def orNull (x : Option JVal) : JVal :=
  if truthy? x then x.getD .null else .null

/-- The `POST /event` handler: `uuid` is the value of `uuidv4()`, `now` the time
value of `new Date()`, `pushOk` whether `redis.rPush` succeeds; the result is
the answer and the queue afterwards. An exception of `new Date(timestamp)` or
of the push is caught by the handler and answered with 500. -/
def postEvent {τ : Type} (D : JsDate τ) (uuid : String) (now : τ) (pushOk : Bool)
    (body : Option Body) (queue : List QueuedEvent) : Reply × List QueuedEvent :=
  let b : Body := body.getD ⟨none, none, none, none, none⟩
  if !truthy? b.site_id || !truthy? b.event_type then
    (.badRequest "site_id and event_type are required", queue)
  else
    let ts : DateResult τ :=
      if truthy? b.timestamp then
        match b.timestamp with
        | some v => D.parse v
        | none => .valid now
      else .valid now
    match ts with
    | .throws => (.internalError, queue)
    | .invalid => (.badRequest "timestamp must be ISO format", queue)
    | .valid t =>
      let event : QueuedEvent :=
        ⟨uuid, b.site_id.getD .null, b.event_type.getD .null, orNull b.path, orNull b.user_id,
          D.toISOString t⟩
      if pushOk then (.accepted event.id, queue ++ [event])
      else (.internalError, queue)

/-! ## The reporting service (`GET /stats`) -/

/-- An element of `top_paths`. -/
structure PathEntry where
  path : String
  views : Int
  deriving DecidableEq, Repr

/-- The method `Array.prototype.sort(compareFn)`: a stable sort that puts `a`
before `b` when `compareFn a b` is negative and keeps the order of elements
that compare equal. -/
def jsSort {α : Type} (compareFn : α → α → Int) (xs : List α) : List α :=
  xs.insertionSort (fun a b => compareFn a b ≤ 0)

/-- The `top_paths` of the `/stats` answer, from the entries of the paths
object (`Object.entries(pathsObj)`, in property order) when they hold integer
counts. -/
def top_paths (pathsObj : List (String × Int)) : List PathEntry :=
  (jsSort (fun a b => b.views - a.views)
    (pathsObj.map (fun pv => (⟨pv.1, pv.2⟩ : PathEntry)))).take 10

/-- The integer counts of a stored paths document in the order the store keeps
its fields; `none` when a field holds an embedded document instead of a
count. -/
def Doc.storedCounts : Doc → Option (List (String × Int))
  | .nil => some []
  | .num k n rest => (Doc.storedCounts rest).map (fun l => (k, n) :: l)
  | .sub _ _ _ => none

/-- The entries `Object.entries` gives for a stored paths document whose
fields hold integer counts: its fields in JavaScript's property order. -/
def Doc.counts (d : Doc) : Option (List (String × Int)) :=
  d.storedCounts.map ownPropertyOrder

/-- The `top_paths` the `/stats` handler derives from a stored paths document
whose fields hold integer counts. -/
def statTopPaths (d : Doc) : Option (List PathEntry) :=
  d.counts.map top_paths

/-! ## A reference `Date` for concrete runs -/

/-- The day number (days since 1970-01-01) of a civil date of the proleptic
Gregorian calendar. -/
def daysFromCivil (y m d : Int) : Int :=
  let y' := if m ≤ 2 then y - 1 else y
  let era := y' / 400
  let yoe := y' - era * 400
  let mp := if m > 2 then m - 3 else m + 9
  let doy := (153 * mp + 2) / 5 + d - 1
  let doe := yoe * 365 + yoe / 4 - yoe / 100 + doy
  era * 146097 + doe - 719468

/-- The civil date (year, month, day) of a day number. -/
def civilFromDays (z : Int) : Int × Int × Int :=
  let z := z + 719468
  let era := z / 146097
  let doe := z - era * 146097
  let yoe := (doe - doe / 1460 + doe / 36524 - doe / 146096) / 365
  let y := yoe + era * 400
  let doy := doe - (365 * yoe + yoe / 4 - yoe / 100)
  let mp := (5 * doy + 2) / 153
  let d := doy - (153 * mp + 2) / 5 + 1
  let m := if mp < 10 then mp + 3 else mp - 9
  (if m ≤ 2 then y + 1 else y, m, d)

/-- The last `w` decimal digits of `n`. -/
def padNat : Nat → Nat → List Char
  | 0, _ => []
  | w + 1, n => padNat w (n / 10) ++ [Char.ofNat (48 + n % 10)]

/-- The year of an ISO-8601 timestamp: four digits from 0 to 9999, a sign and
six digits otherwise. -/
def yearChars (y : Int) : List Char :=
  if 0 ≤ y ∧ y ≤ 9999 then padNat 4 y.toNat
  else if y < 0 then '-' :: padNat 6 (-y).toNat
  else '+' :: padNat 6 y.toNat

/-- The method `Date.prototype.toISOString` on a time value (milliseconds since
the epoch). -/
def isoString (t : Int) : String :=
  let ms := (t % 86400000).toNat
  let ymd := civilFromDays (t / 86400000)
  String.mk (yearChars ymd.1 ++ '-' :: padNat 2 ymd.2.1.toNat ++ '-' :: padNat 2 ymd.2.2.toNat ++
    'T' :: padNat 2 (ms / 3600000) ++ ':' :: padNat 2 (ms / 60000 % 60) ++
    ':' :: padNat 2 (ms / 1000 % 60) ++ '.' :: padNat 3 (ms % 1000) ++ ['Z'])

/-- Whether the character at position `i` of `cs` is `c`. -/
def charAt (cs : List Char) (i : Nat) (c : Char) : Bool :=
  decide ((cs.drop i).take 1 = [c])

/-- Whether a string has the length and the separators of
`YYYY-MM-DDTHH:mm:ss.sssZ`. -/
def isoShape (cs : List Char) : Bool :=
  decide (cs.length = 24) && charAt cs 4 '-' && charAt cs 7 '-' && charAt cs 10 'T' &&
    charAt cs 13 ':' && charAt cs 16 ':' && charAt cs 19 '.' && charAt cs 23 'Z'

/-- Whether month `m` of year `y` has a day `d`. -/
def dayExists (y m d : Int) : Bool :=
  decide (1 ≤ m) && decide (m ≤ 12) && decide (1 ≤ d) &&
    decide (daysFromCivil y m d <
      daysFromCivil (if m = 12 then y + 1 else y) (if m = 12 then 1 else m + 1) 1)

/-- Whether the fields are an hour, a minute and a second of a day. -/
def timeExists (h n s : Nat) : Bool :=
  decide (h ≤ 23) && decide (n ≤ 59) && decide (s ≤ 59)

/-- The time value of a timestamp of the form `YYYY-MM-DDTHH:mm:ss.sssZ` with
an existing day; `none` for any other string. -/
def parseIso (cs : List Char) : Option Int :=
  (digitsValue 0 (cs.take 4)).bind fun y =>
  (digitsValue 0 ((cs.drop 5).take 2)).bind fun m =>
  (digitsValue 0 ((cs.drop 8).take 2)).bind fun d =>
  (digitsValue 0 ((cs.drop 11).take 2)).bind fun h =>
  (digitsValue 0 ((cs.drop 14).take 2)).bind fun n =>
  (digitsValue 0 ((cs.drop 17).take 2)).bind fun s =>
  (digitsValue 0 ((cs.drop 20).take 3)).bind fun f =>
    if isoShape cs && dayExists y m d && timeExists h n s then
      some (daysFromCivil y m d * 86400000 + h * 3600000 + n * 60000 + s * 1000 + f)
    else none

mutual
/-- JavaScript `ToString` on a JSON value; `none` when the conversion throws:
an object with an own `toString` property, which is not callable, has no
way to a primitive. -/
def JVal.toText : JVal → Option (List Char)
  | .null => some "null".data
  | .bool b => some (if b then "true".data else "false".data)
  | .num n => some (toString n).data
  | .str s => some s.data
  | .arr items => items.joinText
  | .obj fields => if fields.hasKey "toString" then none else some "[object Object]".data
/-- The method `Array.prototype.join` with the separator `,`: `null` elements
give the empty string. -/
def JItems.joinText : JItems → Option (List Char)
  | .nil => some []
  | .cons h t =>
    (match h with
      | .null => some []
      | .bool b => JVal.toText (.bool b)
      | .num n => JVal.toText (.num n)
      | .str s => JVal.toText (.str s)
      | .arr items => items.joinText
      | .obj fields => JVal.toText (.obj fields)).bind fun a =>
    match t with
    | .nil => some a
    | .cons h' t' => (JItems.joinText (.cons h' t')).map fun b => a ++ ',' :: b
end

/-- The result of `new Date(s)` for a string `s`, by `parseIso`. -/
def parseString (cs : List Char) : DateResult Int :=
  match parseIso cs with
  | some t => .valid t
  | none => .invalid

/-- A `Date` for the concrete runs, with time values in milliseconds since the
epoch. `null`, booleans and numbers convert as numbers, arrays and objects
through their primitive (an object with an own `toString` property throws),
and a string is a date when it has the form `YYYY-MM-DDTHH:mm:ss.sssZ`; the
other date formats an engine may accept are taken as invalid. -/
def isoDates : JsDate Int where
  parse v :=
    match v with
    | .null => .valid 0
    | .bool b => .valid (if b then 1 else 0)
    | .num n =>
      if -8640000000000000 ≤ n ∧ n ≤ 8640000000000000 then .valid n else .invalid
    | .str s => parseString s.data
    | .arr items =>
      match items.joinText with
      | some cs => parseString cs
      | none => .throws
    | .obj fields => if fields.hasKey "toString" then .throws else .invalid
  toISOString := isoString
  parse_str := by
    intro s
    show parseString s.data ≠ .throws
    unfold parseString
    cases parseIso s.data <;> simp

/-! ## Auxiliary notions -/

/-- The count stored under a field of a document; a missing field counts 0. -/
def Field.countD : Option Field → Int
  | some (.count n) => n
  | _ => 0

/-- Whether a field holds an embedded document. -/
def Field.isNested : Option Field → Bool
  | some (.nested _) => true
  | _ => false

/-- A path key without `'.'`: it names a single field of the paths object. -/
def dotFree (p : String) : Prop := '.' ∉ p.data

/-- The field names of a document, in the order the store keeps them. -/
def Doc.keys : Doc → List String
  | .nil => []
  | .num k _ rest => k :: rest.keys
  | .sub k _ rest => k :: rest.keys

/-- The stats document of a key, or the zero-valued record that stands for a
missing one. -/
def statOrZero (stats : List StatDoc) (site_id : String) (date : Option String) : StatDoc :=
  (findStat stats site_id date).getD ⟨site_id, date, 0, .nil⟩

/-- The `total_views` of a key as the reporting service reads it (0 without a
stats document). -/
def totalViews (stats : List StatDoc) (site_id : String) (date : Option String) : Int :=
  (statOrZero stats site_id date).total_views

/-- The field `paths[q]` of a key as the reporting service reads it (`undefined`
without a stats document). -/
def pathField (stats : List StatDoc) (site_id : String) (date : Option String) (q : String) :
    Option Field :=
  (statOrZero stats site_id date).paths.get q

/-- The store carries out the stats update of a delivery: it answers the raw
insert and the update, and the field of the path key does not hold an embedded
document. -/
def accepts {τ : Type} (D : JsDate τ) (d : Delivery) (S : Store) : Prop :=
  (d.answers.insert = .ok ∧ d.answers.update = .ok) ∧
    Field.isNested (pathField S.stats d.event.site_id (eventDate D d.now d.event)
      (pathKey d.event)) = false

instance {τ : Type} (D : JsDate τ) (d : Delivery) (S : Store) : Decidable (accepts D d S) := by
  unfold accepts
  infer_instance

/-! ## Concrete inputs -/

/-- The clock reading used in the concrete runs. -/
def noon : String := "2025-11-12T12:00:00.000Z"

/-- The time value of `noon`. -/
def noonMs : Int := 1762948800000

/-- A page view of site `s1` on 2025-11-12. -/
def pageview (id path : String) (user : Option String) : Event :=
  ⟨id, "s1", "pageview", some path, user, some "2025-11-12T10:00:00.000Z"⟩

/-- A delivery to which the store answers every call. -/
def deliver (e : Event) : Delivery := ⟨noon, .allOk, e⟩

/-- A request body with a site and an event type and the given timestamp. -/
def bodyWith (site : JVal) (timestamp : Option JVal) : Body :=
  ⟨some site, some (.str "pageview"), some (.str "/a"), none, timestamp⟩

/-! ## The ingestion gateway -/

@[simp]
theorem truthy?_some (v : JVal) : truthy? (some v) = v.truthy := rfl

@[simp]
theorem truthy?_none : truthy? none = false := rfl

theorem postEvent_falsy_required {τ : Type} (D : JsDate τ) (uuid : String) (now : τ)
    (pushOk : Bool) (body : Option Body) (queue : List QueuedEvent)
    (h : truthy? ((body.getD ⟨none, none, none, none, none⟩).site_id) = false ∨
      truthy? ((body.getD ⟨none, none, none, none, none⟩).event_type) = false) :
    postEvent D uuid now pushOk body queue =
      (.badRequest "site_id and event_type are required", queue) := by
  unfold postEvent
  rcases h with h | h <;> simp [h]

/-- C5 (as stated) fails: the empty string is a timestamp that is present and
does not parse as a date, yet the gateway answers 202 and enqueues an event
stamped with its own clock. -/
theorem C5_empty_timestamp_accepted :
    (bodyWith (.str "s1") (some (.str ""))).timestamp = some (.str "") ∧
    isoDates.parse (.str "") = .invalid ∧
    (postEvent isoDates "id-1" noonMs true
      (some (bodyWith (.str "s1") (some (.str "")))) []).1.status = 202 ∧
    (postEvent isoDates "id-1" noonMs true (some (bodyWith (.str "s1") (some (.str "")))) []).2
      = [⟨"id-1", .str "s1", .str "pageview", .str "/a", .null, "2025-11-12T12:00:00.000Z"⟩] := by
  decide

/-- C5 (amended): a timestamp that is present and truthy and for which
`new Date` gives an invalid date is answered with 400 and the queue is left
unchanged; a present timestamp that is falsy, such as the empty string, is
treated as an absent one: with truthy `site_id` and `event_type` the event is
stamped with the gateway's clock and enqueued (202), or answered 500 when the
push fails; and a truthy timestamp whose conversion by `new Date` throws is
answered with 500 and nothing is enqueued. -/
theorem C5_unparseable_timestamp_rejected {τ : Type} (D : JsDate τ) (uuid : String) (now : τ)
    (pushOk : Bool) (queue : List QueuedEvent) :
    (∀ (b : Body) (v : JVal), b.timestamp = some v → v.truthy = true → D.parse v = .invalid →
      (postEvent D uuid now pushOk (some b) queue).1.status = 400 ∧
      (postEvent D uuid now pushOk (some b) queue).2 = queue) ∧
    (∀ (b : Body) (v : JVal), b.timestamp = some v → v.truthy = false →
      truthy? b.site_id = true → truthy? b.event_type = true →
      postEvent D uuid now pushOk (some b) queue =
        if pushOk then
          (.accepted uuid, queue ++ [⟨uuid, b.site_id.getD .null, b.event_type.getD .null,
            orNull b.path, orNull b.user_id, D.toISOString now⟩])
        else (.internalError, queue)) ∧
    (∀ (b : Body) (v : JVal), b.timestamp = some v → v.truthy = true → D.parse v = .throws →
      truthy? b.site_id = true → truthy? b.event_type = true →
      (postEvent D uuid now pushOk (some b) queue).1.status = 500 ∧
      (postEvent D uuid now pushOk (some b) queue).2 = queue) := by
  refine ⟨?_, ?_, ?_⟩
  · intro b v hts htruthy hparse
    cases hs : truthy? b.site_id <;> cases he : truthy? b.event_type <;>
      simp [postEvent, hs, he, hts, htruthy, hparse, Reply.status]
  · intro b v hts hfalsy hs he
    cases pushOk <;> simp [postEvent, hs, he, hts, hfalsy]
  · intro b v hts htruthy hparse hs he
    simp [postEvent, hs, he, hts, htruthy, hparse, Reply.status]

/-- C5 (amended) at the timestamps `yesterday`, the empty string and
`{"toString": 1}`. -/
theorem C5_unparseable_timestamp_rejected_witness :
    ((postEvent isoDates "id-1" noonMs true
        (some (bodyWith (.str "s1") (some (.str "yesterday")))) []).1.status = 400 ∧
      (postEvent isoDates "id-1" noonMs true
        (some (bodyWith (.str "s1") (some (.str "yesterday")))) []).2 = []) ∧
    postEvent isoDates "id-1" noonMs true (some (bodyWith (.str "s1") (some (.str "")))) [] =
      (if true then
        (.accepted "id-1", [] ++ [⟨"id-1", (bodyWith (.str "s1") (some (.str ""))).site_id.getD .null,
          (bodyWith (.str "s1") (some (.str ""))).event_type.getD .null,
          orNull (bodyWith (.str "s1") (some (.str ""))).path,
          orNull (bodyWith (.str "s1") (some (.str ""))).user_id,
          isoDates.toISOString noonMs⟩])
      else (.internalError, [])) ∧
    ((postEvent isoDates "id-1" noonMs true
        (some (bodyWith (.str "s1") (some (.obj (.cons "toString" (.num 1) .nil))))) []).1.status
        = 500 ∧
      (postEvent isoDates "id-1" noonMs true
        (some (bodyWith (.str "s1") (some (.obj (.cons "toString" (.num 1) .nil))))) []).2 = []) :=
  ⟨(C5_unparseable_timestamp_rejected isoDates "id-1" noonMs true []).1
      (bodyWith (.str "s1") (some (.str "yesterday"))) (.str "yesterday") rfl (by decide)
      (by decide),
   (C5_unparseable_timestamp_rejected isoDates "id-1" noonMs true []).2.1
      (bodyWith (.str "s1") (some (.str ""))) (.str "") rfl (by decide) (by decide) (by decide),
   (C5_unparseable_timestamp_rejected isoDates "id-1" noonMs true []).2.2
      (bodyWith (.str "s1") (some (.obj (.cons "toString" (.num 1) .nil))))
      (.obj (.cons "toString" (.num 1) .nil)) rfl (by decide) (by decide) (by decide)
      (by decide)⟩

/-- C6 (as stated) fails: a `site_id` that is a number, hence not a non-empty
string, is accepted with 202 and enqueued. -/
theorem C6_numeric_site_id_accepted :
    (postEvent isoDates "id-1" noonMs true (some (bodyWith (.num 123) none)) []).1.status = 202 ∧
    (postEvent isoDates "id-1" noonMs true (some (bodyWith (.num 123) none)) []).2
      = [⟨"id-1", .num 123, .str "pageview", .str "/a", .null, "2025-11-12T12:00:00.000Z"⟩] := by
  decide

/-- C6 (amended): a body (or no body) whose `site_id` or `event_type` is missing
or falsy is answered with 400 and nothing is enqueued; a body whose `site_id`
and `event_type` are truthy and that has no timestamp is never answered with
400. -/
theorem C6_required_fields {τ : Type} (D : JsDate τ) (uuid : String) (now : τ)
    (pushOk : Bool) (queue : List QueuedEvent) :
    (∀ body : Option Body,
      (truthy? ((body.getD ⟨none, none, none, none, none⟩).site_id) = false ∨
        truthy? ((body.getD ⟨none, none, none, none, none⟩).event_type) = false) →
      (postEvent D uuid now pushOk body queue).1.status = 400 ∧
      (postEvent D uuid now pushOk body queue).2 = queue) ∧
    (∀ b : Body, truthy? b.site_id = true → truthy? b.event_type = true →
      b.timestamp = none →
      (postEvent D uuid now pushOk (some b) queue).1.status ≠ 400) := by
  constructor
  · intro body h
    rw [postEvent_falsy_required D uuid now pushOk body queue h]
    exact ⟨rfl, rfl⟩
  · intro b hs he ht
    cases pushOk <;> simp [postEvent, hs, he, ht, Reply.status]

/-- C6 (amended) at a request without a body and at a request with both
required fields and no timestamp. -/
theorem C6_required_fields_witness :
    ((postEvent isoDates "id-1" noonMs true none []).1.status = 400 ∧
      (postEvent isoDates "id-1" noonMs true none []).2 = []) ∧
    (postEvent isoDates "id-1" noonMs true (some (bodyWith (.str "s1") none)) []).1.status
      ≠ 400 :=
  ⟨(C6_required_fields isoDates "id-1" noonMs true []).1 none (Or.inl rfl),
   (C6_required_fields isoDates "id-1" noonMs true []).2 (bodyWith (.str "s1") none)
     (by decide) (by decide) rfl⟩

/-! ## The raw insert -/

theorem workerStep_insert_fault {τ : Type} (D : JsDate τ) (now : String) (a : Answers)
    (e : Event) (S : Store) (h : a.insert = .fault) :
    workerStep D now a e S = ⟨.loopError, S⟩ := by
  unfold workerStep
  simp only [h]

theorem workerStep_rejected {τ : Type} (D : JsDate τ) (now : String) (a : Answers)
    (e : Event) (S : Store) (hi : a.insert = .ok)
    (h : a.update = .fault ∨
      upsertStat e.site_id (eventDate D now e) (pathKey e) S.stats = none) :
    workerStep D now a e S =
      ⟨.loopError, { S with events := S.events ++ [rawEvent D now e] }⟩ := by
  unfold workerStep
  rcases h with h | h
  · simp only [hi, h]
  · cases hu : a.update <;> simp only [hi, h]

theorem workerStep_accepted {τ : Type} (D : JsDate τ) (now : String) (a : Answers)
    (e : Event) (S : Store) (stats : List StatDoc) (hi : a.insert = .ok) (hu : a.update = .ok)
    (h : upsertStat e.site_id (eventDate D now e) (pathKey e) S.stats = some stats) :
    workerStep D now a e S =
      ⟨.completed, ⟨S.events ++ [rawEvent D now e], stats,
        if strTruthy e.user_id = true ∧ a.upsert = .ok then
          upsertUser e.site_id (eventDate D now e) (e.user_id.getD "") now S.unique_users
        else S.unique_users⟩⟩ := by
  unfold workerStep
  simp only [hi, hu, h]
  by_cases ht : strTruthy e.user_id = true <;> cases hp : a.upsert <;> simp [ht]

/-- C10 (as stated) fails: the raw insert of an event whose `event_id` is
already recorded raises no duplicate-key condition and is not absorbed as
already recorded: with the store answering every call, a redelivered event
is processed to its end, recorded a second time and counted a second time. -/
theorem C10_redelivery_recorded_twice :
    (run isoDates [deliver (pageview "e1" "/a" (some "u1")),
        deliver (pageview "e1" "/a" (some "u1"))] Store.empty).events.map RawEvent.event_id
      = ["e1", "e1"] ∧
    processed isoDates [deliver (pageview "e1" "/a" (some "u1")),
        deliver (pageview "e1" "/a" (some "u1"))] Store.empty
      = [(pageview "e1" "/a" (some "u1"), some "2025-11-12"),
         (pageview "e1" "/a" (some "u1"), some "2025-11-12")] ∧
    (run isoDates [deliver (pageview "e1" "/a" (some "u1")),
        deliver (pageview "e1" "/a" (some "u1"))] Store.empty).stats
      = [⟨"s1", some "2025-11-12", 2, .num "/a" 2 .nil⟩] := by
  decide

/-- C10 (amended): the raw insert is not keyed by `event_id`: whenever the
store answers it, the raw event is appended to `events`, whether or not an
event with that `event_id` is recorded already, and the iteration goes on to
the DailyStat increment and the unique-user upsert; a fault of the raw insert
is not absorbed: the iteration ends in the loop-level handler and leaves the
store as it was, without increment and without upsert. -/
theorem C10_raw_insert_not_keyed {τ : Type} (D : JsDate τ) (now : String)
    (e : Event) (S : Store) :
    (∀ a : Answers, a.insert = .ok →
      (workerStep D now a e S).store.events = S.events ++ [rawEvent D now e]) ∧
    (∀ (a : Answers) (stats : List StatDoc), a.insert = .ok → a.update = .ok →
      upsertStat e.site_id (eventDate D now e) (pathKey e) S.stats = some stats →
      (workerStep D now a e S).outcome = .completed ∧
      (workerStep D now a e S).store.stats = stats ∧
      (strTruthy e.user_id = true → a.upsert = .ok →
        (workerStep D now a e S).store.unique_users =
          upsertUser e.site_id (eventDate D now e) (e.user_id.getD "") now S.unique_users)) ∧
    (∀ a : Answers, a.insert = .fault → workerStep D now a e S = ⟨.loopError, S⟩) := by
  refine ⟨?_, ?_, ?_⟩
  · intro a hi
    cases hu : a.update with
    | fault => rw [workerStep_rejected D now a e S hi (Or.inl hu)]
    | ok =>
      cases h : upsertStat e.site_id (eventDate D now e) (pathKey e) S.stats with
      | none => rw [workerStep_rejected D now a e S hi (Or.inr h)]
      | some stats => rw [workerStep_accepted D now a e S stats hi hu h]
  · intro a stats hi hu h
    rw [workerStep_accepted D now a e S stats hi hu h]
    refine ⟨rfl, rfl, ?_⟩
    intro ht hp
    simp [ht, hp]
  · intro a hi
    exact workerStep_insert_fault D now a e S hi

/-- C10 (amended) at a redelivery: the event `e1` is handled in the store that
already records it. -/
theorem C10_raw_insert_not_keyed_witness :
    (∃ r ∈ (run isoDates [deliver (pageview "e1" "/a" (some "u1"))] Store.empty).events,
      r.event_id = (pageview "e1" "/a" (some "u1")).id) ∧
    (workerStep isoDates noon .allOk (pageview "e1" "/a" (some "u1"))
        (run isoDates [deliver (pageview "e1" "/a" (some "u1"))] Store.empty)).store.events =
      (run isoDates [deliver (pageview "e1" "/a" (some "u1"))] Store.empty).events ++
        [rawEvent isoDates noon (pageview "e1" "/a" (some "u1"))] ∧
    ((workerStep isoDates noon .allOk (pageview "e1" "/a" (some "u1"))
        (run isoDates [deliver (pageview "e1" "/a" (some "u1"))] Store.empty)).outcome
        = .completed ∧
      (workerStep isoDates noon .allOk (pageview "e1" "/a" (some "u1"))
        (run isoDates [deliver (pageview "e1" "/a" (some "u1"))] Store.empty)).store.stats
        = [⟨"s1", some "2025-11-12", 2, .num "/a" 2 .nil⟩]) ∧
    workerStep isoDates noon ⟨.fault, .ok, .ok⟩ (pageview "e1" "/a" (some "u1"))
        (run isoDates [deliver (pageview "e1" "/a" (some "u1"))] Store.empty) =
      ⟨.loopError, run isoDates [deliver (pageview "e1" "/a" (some "u1"))] Store.empty⟩ :=
  ⟨by decide,
   (C10_raw_insert_not_keyed isoDates noon (pageview "e1" "/a" (some "u1"))
      (run isoDates [deliver (pageview "e1" "/a" (some "u1"))] Store.empty)).1 .allOk rfl,
   ⟨((C10_raw_insert_not_keyed isoDates noon (pageview "e1" "/a" (some "u1"))
      (run isoDates [deliver (pageview "e1" "/a" (some "u1"))] Store.empty)).2.1 .allOk
      [⟨"s1", some "2025-11-12", 2, .num "/a" 2 .nil⟩] rfl rfl (by decide)).1,
    ((C10_raw_insert_not_keyed isoDates noon (pageview "e1" "/a" (some "u1"))
      (run isoDates [deliver (pageview "e1" "/a" (some "u1"))] Store.empty)).2.1 .allOk
      [⟨"s1", some "2025-11-12", 2, .num "/a" 2 .nil⟩] rfl rfl (by decide)).2.1⟩,
   (C10_raw_insert_not_keyed isoDates noon (pageview "e1" "/a" (some "u1"))
      (run isoDates [deliver (pageview "e1" "/a" (some "u1"))] Store.empty)).2.2
      ⟨.fault, .ok, .ok⟩ rfl⟩

/-! ## The reporting service -/

theorem jsSort_perm {α : Type} (compareFn : α → α → Int) (xs : List α) :
    (jsSort compareFn xs).Perm xs :=
  List.perm_insertionSort _ xs

theorem jsSort_views_sorted (xs : List PathEntry) :
    (jsSort (fun a b => b.views - a.views) xs).Pairwise (fun a b => b.views ≤ a.views) := by
  haveI : IsTotal PathEntry (fun a b => b.views - a.views ≤ 0) :=
    ⟨fun a b => by
      show b.views - a.views ≤ 0 ∨ a.views - b.views ≤ 0
      omega⟩
  haveI : IsTrans PathEntry (fun a b => b.views - a.views ≤ 0) :=
    ⟨fun a b c h₁ h₂ => by
      have h₁' : b.views - a.views ≤ 0 := h₁
      have h₂' : c.views - b.views ≤ 0 := h₂
      show c.views - a.views ≤ 0
      omega⟩
  have h : (jsSort (fun a b => b.views - a.views) xs).Sorted
      (fun a b => b.views - a.views ≤ 0) :=
    List.sorted_insertionSort (fun a b : PathEntry => b.views - a.views ≤ 0) xs
  exact List.Pairwise.imp (fun {a b} hab => by
    have hab' : b.views - a.views ≤ 0 := hab
    omega) h

/-- Stability of the sort: the entries with a given view count keep the order
they have in the input. -/
theorem jsSort_views_stable (xs : List PathEntry) (v : Int) :
    (jsSort (fun a b => b.views - a.views) xs).filter (fun x => decide (x.views = v))
      = xs.filter (fun x => decide (x.views = v)) := by
  have hc : List.Sublist (xs.filter (fun x => decide (x.views = v))) xs :=
    List.filter_sublist xs
  have hr : (xs.filter (fun x => decide (x.views = v))).Pairwise
      (fun a b => b.views - a.views ≤ 0) := by
    apply List.Pairwise.imp_of_mem _ (List.pairwise_of_forall (l := _) (fun _ _ => trivial))
    intro a b ha hb _
    have ha' : a.views = v := by simpa using (List.mem_filter.mp ha).2
    have hb' : b.views = v := by simpa using (List.mem_filter.mp hb).2
    show b.views - a.views ≤ 0
    omega
  have hsub : List.Sublist (xs.filter (fun x => decide (x.views = v)))
      (jsSort (fun a b => b.views - a.views) xs) :=
    List.sublist_insertionSort hr hc
  have hsub' := List.Sublist.filter (fun x : PathEntry => decide (x.views = v)) hsub
  rw [List.filter_filter] at hsub'
  simp only [Bool.and_self] at hsub'
  have hlen := ((jsSort_perm (fun a b : PathEntry => b.views - a.views) xs).filter
    (fun x => decide (x.views = v))).length_eq
  exact (List.Sublist.eq_of_length hsub' hlen.symm).symm

/-- C7: for a paths mapping with integer counts, `top_paths` has length
`min 10 (number of paths)`, is sorted by views in non-increasing order,
consists of entries of the mapping, repeats no path, and every entry left out
has at most the views of every entry included. -/
theorem C7_top_paths_ranking (pathsObj : List (String × Int))
    (hkeys : (pathsObj.map Prod.fst).Nodup) :
    (top_paths pathsObj).length = min 10 pathsObj.length ∧
    (top_paths pathsObj).Pairwise (fun a b => b.views ≤ a.views) ∧
    (∀ x ∈ top_paths pathsObj, (x.path, x.views) ∈ pathsObj) ∧
    ((top_paths pathsObj).map PathEntry.path).Nodup ∧
    (∀ pv ∈ pathsObj, (⟨pv.1, pv.2⟩ : PathEntry) ∉ top_paths pathsObj →
      ∀ y ∈ top_paths pathsObj, pv.2 ≤ y.views) := by
  have hperm := jsSort_perm (fun a b : PathEntry => b.views - a.views)
    (pathsObj.map (fun pv => (⟨pv.1, pv.2⟩ : PathEntry)))
  have hsorted := jsSort_views_sorted (pathsObj.map (fun pv => (⟨pv.1, pv.2⟩ : PathEntry)))
  have hmem : ∀ x ∈ top_paths pathsObj, (x.path, x.views) ∈ pathsObj := by
    intro x hx
    have hx' := hperm.subset (List.mem_of_mem_take hx)
    obtain ⟨pv, hpv, rfl⟩ := List.mem_map.mp hx'
    exact hpv
  refine ⟨?_, ?_, hmem, ?_, ?_⟩
  · unfold top_paths
    rw [List.length_take, hperm.length_eq, List.length_map]
  · exact List.Pairwise.sublist (List.take_sublist 10 _) hsorted
  · have hnd : ((jsSort (fun a b : PathEntry => b.views - a.views)
        (pathsObj.map (fun pv => (⟨pv.1, pv.2⟩ : PathEntry)))).map PathEntry.path).Nodup := by
      rw [(hperm.map PathEntry.path).nodup_iff, List.map_map]
      exact hkeys
    exact List.Nodup.sublist (List.Sublist.map _ (List.take_sublist 10 _)) hnd
  · intro pv hpv hout y hy
    have hin : (⟨pv.1, pv.2⟩ : PathEntry) ∈ jsSort (fun a b : PathEntry => b.views - a.views)
        (pathsObj.map (fun pv => (⟨pv.1, pv.2⟩ : PathEntry))) :=
      hperm.symm.subset (List.mem_map.mpr ⟨pv, hpv, rfl⟩)
    rw [← List.take_append_drop 10 (jsSort (fun a b : PathEntry => b.views - a.views)
        (pathsObj.map (fun pv => (⟨pv.1, pv.2⟩ : PathEntry))))] at hin hsorted
    rcases List.mem_append.mp hin with h | h
    · exact absurd h hout
    · exact (List.pairwise_append.mp hsorted).2.2 y hy _ h

/-- C7 at a paths object with three paths. -/
theorem C7_top_paths_ranking_witness :
    ([("/a", (3 : Int)), ("/b", 1), ("/c", 7)].map Prod.fst).Nodup ∧
    ((top_paths [("/a", 3), ("/b", 1), ("/c", 7)]).length = min 10 3 ∧
      (top_paths [("/a", 3), ("/b", 1), ("/c", 7)]).Pairwise (fun a b => b.views ≤ a.views) ∧
      (∀ x ∈ top_paths [("/a", 3), ("/b", 1), ("/c", 7)],
        (x.path, x.views) ∈ [("/a", (3 : Int)), ("/b", 1), ("/c", 7)]) ∧
      ((top_paths [("/a", 3), ("/b", 1), ("/c", 7)]).map PathEntry.path).Nodup ∧
      (∀ pv ∈ [("/a", (3 : Int)), ("/b", 1), ("/c", 7)],
        (⟨pv.1, pv.2⟩ : PathEntry) ∉ top_paths [("/a", 3), ("/b", 1), ("/c", 7)] →
        ∀ y ∈ top_paths [("/a", 3), ("/b", 1), ("/c", 7)], pv.2 ≤ y.views)) :=
  ⟨by decide, C7_top_paths_ranking [("/a", 3), ("/b", 1), ("/c", 7)] (by decide)⟩

/-- C8 (as stated) fails: the paths objects left by the page views `/b`, `/a`
and by `/a`, `/b` hold the same counts, yet their `top_paths` differ, and the
first lists `/b` before `/a` although the views are equal and `/a` is the
smaller string. -/
theorem C8_ties_follow_insertion_order :
    ((findStat (run isoDates [deliver (pageview "e1" "/b" none),
        deliver (pageview "e2" "/a" none)] Store.empty).stats "s1" (some "2025-11-12")).bind
      (fun s => s.paths.counts)) = some [("/b", 1), ("/a", 1)] ∧
    ((findStat (run isoDates [deliver (pageview "e2" "/a" none),
        deliver (pageview "e1" "/b" none)] Store.empty).stats "s1" (some "2025-11-12")).bind
      (fun s => s.paths.counts)) = some [("/a", 1), ("/b", 1)] ∧
    [("/b", (1 : Int)), ("/a", 1)].Perm [("/a", 1), ("/b", 1)] ∧
    top_paths [("/b", 1), ("/a", 1)] = [⟨"/b", 1⟩, ⟨"/a", 1⟩] ∧
    top_paths [("/a", 1), ("/b", 1)] = [⟨"/a", 1⟩, ⟨"/b", 1⟩] ∧
    top_paths [("/b", 1), ("/a", 1)] ≠ top_paths [("/a", 1), ("/b", 1)] ∧
    "/a" < "/b" := by
  refine ⟨by decide, by decide, List.Perm.swap _ _ _, by decide, by decide, by decide,
    String.lt_iff_toList_lt.mpr (by decide)⟩

/-- The property order puts the array-index keys in ascending order. -/
theorem ownPropertyOrder_index_sorted {α : Type} (fields : List (String × α)) :
    ((fields.filter (fun f => (arrayIndex? f.1).isSome)).insertionSort
      (fun a b => (arrayIndex? a.1).getD 0 ≤ (arrayIndex? b.1).getD 0)).Pairwise
      (fun a b => (arrayIndex? a.1).getD 0 ≤ (arrayIndex? b.1).getD 0) := by
  haveI : IsTotal (String × α)
      (fun a b => (arrayIndex? a.1).getD 0 ≤ (arrayIndex? b.1).getD 0) :=
    ⟨fun a b => Nat.le_total _ _⟩
  haveI : IsTrans (String × α)
      (fun a b => (arrayIndex? a.1).getD 0 ≤ (arrayIndex? b.1).getD 0) :=
    ⟨fun a b c h₁ h₂ => Nat.le_trans h₁ h₂⟩
  exact List.sorted_insertionSort _ _

/-- C8 (amended): ties are broken by the order in which `Object.entries` lists
the stored paths object, not by the path string: for a stored paths document
with integer counts, `top_paths` is derived from its fields put in property
order, that is the array-index paths in ascending numeric order followed by
the other paths in stored order, and for every view count `v` the entries of
`top_paths` with `v` views are the first entries with `v` views of that
list, in its order. -/
theorem C8_ties_keep_property_order (d : Doc) (stored : List (String × Int))
    (h : d.storedCounts = some stored) (v : Int) :
    statTopPaths d = some (top_paths
      ((stored.filter (fun f => (arrayIndex? f.1).isSome)).insertionSort
          (fun a b => (arrayIndex? a.1).getD 0 ≤ (arrayIndex? b.1).getD 0)
        ++ stored.filter (fun f => (arrayIndex? f.1).isNone))) ∧
    ((stored.filter (fun f => (arrayIndex? f.1).isSome)).insertionSort
      (fun a b => (arrayIndex? a.1).getD 0 ≤ (arrayIndex? b.1).getD 0)).Pairwise
      (fun a b => (arrayIndex? a.1).getD 0 ≤ (arrayIndex? b.1).getD 0) ∧
    ∀ tp, statTopPaths d = some tp →
      List.IsPrefix (tp.filter (fun x => decide (x.views = v)))
        ((((stored.filter (fun f => (arrayIndex? f.1).isSome)).insertionSort
            (fun a b => (arrayIndex? a.1).getD 0 ≤ (arrayIndex? b.1).getD 0)
          ++ stored.filter (fun f => (arrayIndex? f.1).isNone)).map
            (fun pv => (⟨pv.1, pv.2⟩ : PathEntry))).filter (fun x => decide (x.views = v))) := by
  have hst : statTopPaths d = some (top_paths (ownPropertyOrder stored)) := by
    simp [statTopPaths, Doc.counts, h]
  refine ⟨hst, ownPropertyOrder_index_sorted stored, ?_⟩
  intro tp htp
  rw [hst] at htp
  cases htp
  show List.IsPrefix _ (List.filter _ (List.map _ (ownPropertyOrder stored)))
  rw [← jsSort_views_stable ((ownPropertyOrder stored).map
    (fun pv => (⟨pv.1, pv.2⟩ : PathEntry))) v]
  exact List.IsPrefix.filter _ (List.take_prefix 10 _)

/-- C8 (amended) at the paths `b`, `10` and `2`, counted once each in this
order: the store keeps them in this order, and `top_paths` lists `2`, `10`,
`b`. -/
theorem C8_ties_keep_property_order_witness :
    ((findStat (run isoDates [deliver (pageview "e1" "b" none),
        deliver (pageview "e2" "10" none), deliver (pageview "e3" "2" none)]
        Store.empty).stats "s1" (some "2025-11-12")).map StatDoc.paths
      = some (.num "b" 1 (.num "10" 1 (.num "2" 1 .nil)))) ∧
    (Doc.num "b" 1 (.num "10" 1 (.num "2" 1 .nil))).storedCounts
      = some [("b", 1), ("10", 1), ("2", 1)] ∧
    statTopPaths (.num "b" 1 (.num "10" 1 (.num "2" 1 .nil)))
      = some [⟨"2", 1⟩, ⟨"10", 1⟩, ⟨"b", 1⟩] ∧
    (statTopPaths (.num "b" 1 (.num "10" 1 (.num "2" 1 .nil))) = some (top_paths
      (([("b", (1 : Int)), ("10", 1), ("2", 1)].filter
            (fun f => (arrayIndex? f.1).isSome)).insertionSort
          (fun a b => (arrayIndex? a.1).getD 0 ≤ (arrayIndex? b.1).getD 0)
        ++ [("b", (1 : Int)), ("10", 1), ("2", 1)].filter
            (fun f => (arrayIndex? f.1).isNone))) ∧
    (([("b", (1 : Int)), ("10", 1), ("2", 1)].filter
          (fun f => (arrayIndex? f.1).isSome)).insertionSort
        (fun a b => (arrayIndex? a.1).getD 0 ≤ (arrayIndex? b.1).getD 0)).Pairwise
      (fun a b => (arrayIndex? a.1).getD 0 ≤ (arrayIndex? b.1).getD 0) ∧
    ∀ tp, statTopPaths (.num "b" 1 (.num "10" 1 (.num "2" 1 .nil))) = some tp →
      List.IsPrefix (tp.filter (fun x => decide (x.views = 1)))
        (((([("b", (1 : Int)), ("10", 1), ("2", 1)].filter
              (fun f => (arrayIndex? f.1).isSome)).insertionSort
            (fun a b => (arrayIndex? a.1).getD 0 ≤ (arrayIndex? b.1).getD 0)
          ++ [("b", (1 : Int)), ("10", 1), ("2", 1)].filter
              (fun f => (arrayIndex? f.1).isNone)).map
            (fun pv => (⟨pv.1, pv.2⟩ : PathEntry))).filter
          (fun x => decide (x.views = 1)))) :=
  ⟨by decide, by decide, by decide,
    C8_ties_keep_property_order (.num "b" 1 (.num "10" 1 (.num "2" 1 .nil)))
      [("b", 1), ("10", 1), ("2", 1)] (by decide) 1⟩

/-! ## Unique users -/

theorem countDocuments_eq_length_keyUsers (marks : List UserMark) (site_id : String)
    (date : Option String) :
    countDocuments marks site_id date = (keyUsers marks site_id date).length := by
  simp [countDocuments, keyUsers]

theorem mem_keyUsers {marks : List UserMark} {site_id : String} {date : Option String}
    {u : String} :
    u ∈ keyUsers marks site_id date ↔
      ∃ m ∈ marks, m.site_id = site_id ∧ m.date = date ∧ m.user_id = u := by
  simp only [keyUsers, List.mem_map, List.mem_filter, decide_eq_true_eq]
  constructor
  · rintro ⟨m, ⟨hm, hs, hd⟩, hu⟩
    exact ⟨m, hm, hs, hd, hu⟩
  · rintro ⟨m, hm, hs, hd, hu⟩
    exact ⟨m, ⟨hm, hs, hd⟩, hu⟩

theorem keyUsers_upsertUser (s : String) (d : Option String) (u fs : String)
    (marks : List UserMark) (site_id : String) (date : Option String) :
    keyUsers (upsertUser s d u fs marks) site_id date =
      if (s = site_id ∧ d = date) ∧ u ∉ keyUsers marks s d
      then keyUsers marks site_id date ++ [u] else keyUsers marks site_id date := by
  unfold upsertUser
  by_cases hany : marks.any (fun m => decide (m.site_id = s ∧ m.date = d ∧ m.user_id = u)) = true
  · have hin : u ∈ keyUsers marks s d := by
      rw [List.any_eq_true] at hany
      obtain ⟨m, hm, hdec⟩ := hany
      exact mem_keyUsers.mpr ⟨m, hm, by simpa using hdec⟩
    rw [if_pos hany, if_neg (fun h => h.2 hin)]
  · have hnotin : u ∉ keyUsers marks s d := by
      intro hin
      obtain ⟨m, hm, h⟩ := mem_keyUsers.mp hin
      exact hany (List.any_eq_true.mpr ⟨m, hm, by simpa using h⟩)
    rw [if_neg hany]
    by_cases hk : s = site_id ∧ d = date
    · rw [if_pos ⟨hk, hnotin⟩]
      simp [keyUsers, List.filter_append, hk.1, hk.2]
    · rw [if_neg (fun h => hk h.1)]
      simp [keyUsers, List.filter_append, List.filter_cons, hk]

theorem workerStep_unique_users {τ : Type} (D : JsDate τ) (now : String) (a : Answers)
    (e : Event) (S : Store) :
    (workerStep D now a e S).store.unique_users =
      if ((workerStep D now a e S).outcome = .completed ∧ strTruthy e.user_id = true) ∧
          a.upsert = .ok
      then upsertUser e.site_id (eventDate D now e) (e.user_id.getD "") now S.unique_users
      else S.unique_users := by
  cases hi : a.insert with
  | fault =>
    rw [workerStep_insert_fault D now a e S hi]
    simp
  | ok =>
    cases hu : a.update with
    | fault =>
      rw [workerStep_rejected D now a e S hi (Or.inl hu)]
      simp
    | ok =>
      cases h : upsertStat e.site_id (eventDate D now e) (pathKey e) S.stats with
      | none =>
        rw [workerStep_rejected D now a e S hi (Or.inr h)]
        simp
      | some stats =>
        rw [workerStep_accepted D now a e S stats hi hu h]
        by_cases ht : strTruthy e.user_id = true <;> cases hp : a.upsert <;> simp [ht]

/-- The marks of a key after one iteration: the user of the event is added
when the iteration ran to its end, the event carries a user id and is filed
under the key, the store answered the upsert, and the user had no mark. -/
theorem keyUsers_workerStep {τ : Type} (D : JsDate τ) (d : Delivery) (S : Store)
    (site_id : String) (date : Option String) :
    keyUsers (workerStep D d.now d.answers d.event S).store.unique_users site_id date =
      if ((((workerStep D d.now d.answers d.event S).outcome = .completed ∧
              strTruthy d.event.user_id = true) ∧ d.answers.upsert = .ok) ∧
            (d.event.site_id = site_id ∧ eventDate D d.now d.event = date)) ∧
          d.event.user_id.getD "" ∉ keyUsers S.unique_users site_id date
      then keyUsers S.unique_users site_id date ++ [d.event.user_id.getD ""]
      else keyUsers S.unique_users site_id date := by
  rw [workerStep_unique_users]
  by_cases hc : ((workerStep D d.now d.answers d.event S).outcome = .completed ∧
      strTruthy d.event.user_id = true) ∧ d.answers.upsert = .ok
  · rw [if_pos hc, keyUsers_upsertUser]
    by_cases hk : d.event.site_id = site_id ∧ eventDate D d.now d.event = date
    · obtain ⟨hs, hd⟩ := hk
      subst hs hd
      by_cases hin : d.event.user_id.getD "" ∈
          keyUsers S.unique_users d.event.site_id (eventDate D d.now d.event)
      · rw [if_neg (fun h => h.2 hin), if_neg (fun h => h.2 hin)]
      · rw [if_pos ⟨⟨rfl, rfl⟩, hin⟩, if_pos ⟨⟨hc, rfl, rfl⟩, hin⟩]
    · rw [if_neg (fun h => hk h.1), if_neg (fun h => hk h.1.2)]
  · rw [if_neg hc, if_neg (fun h => hc h.1.1)]

theorem strTruthy_getD {o : Option String} (h : strTruthy o = true) : o = some (o.getD "") := by
  cases o with
  | none => simp [strTruthy] at h
  | some s => rfl

theorem mem_observedUsers_cons (x : Event × Option String) (log : List (Event × Option String))
    (site_id : String) (date : Option String) (u : String) :
    u ∈ observedUsers (x :: log) site_id date ↔
      ((strTruthy x.1.user_id = true ∧ x.1.site_id = site_id ∧ x.2 = date) ∧
          x.1.user_id = some u) ∨ u ∈ observedUsers log site_id date := by
  unfold observedUsers
  rw [List.filterMap_cons]
  by_cases hc : strTruthy x.1.user_id = true ∧ x.1.site_id = site_id ∧ x.2 = date
  · rw [if_pos hc]
    obtain ⟨w, hw⟩ : ∃ w, x.1.user_id = some w := ⟨_, strTruthy_getD hc.1⟩
    rw [hw, List.mem_cons]
    constructor
    · rintro (h | h)
      · exact Or.inl ⟨hw ▸ hc, by rw [h]⟩
      · exact Or.inr h
    · rintro (⟨_, h⟩ | h)
      · exact Or.inl (Option.some.inj h).symm
      · exact Or.inr h
  · rw [if_neg hc]
    constructor
    · exact fun h => Or.inr h
    · rintro (⟨h, _⟩ | h)
      · exact absurd h hc
      · exact h

theorem keyUsers_run {τ : Type} (D : JsDate τ) (site_id : String) (date : Option String) :
    ∀ (ds : List Delivery) (S : Store), (keyUsers S.unique_users site_id date).Nodup →
      (keyUsers (run D ds S).unique_users site_id date).Nodup ∧
      ∀ u, u ∈ keyUsers (run D ds S).unique_users site_id date ↔
        u ∈ keyUsers S.unique_users site_id date ∨
          u ∈ observedUsers (answered D ds S) site_id date := by
  intro ds
  induction ds with
  | nil =>
    intro S hnd
    exact ⟨hnd, fun u => by simp [run, answered, observedUsers]⟩
  | cons d ds ih =>
    intro S hnd
    have hkey := keyUsers_workerStep D d S site_id date
    have hrun : run D (d :: ds) S = run D ds (workerStep D d.now d.answers d.event S).store :=
      rfl
    rw [hrun]
    by_cases hA : (workerStep D d.now d.answers d.event S).outcome = .completed ∧
        d.answers.upsert = .ok
    · have hans : answered D (d :: ds) S = (d.event, eventDate D d.now d.event) ::
          answered D ds (workerStep D d.now d.answers d.event S).store := by
        simp [answered, hA]
      by_cases hC : (((workerStep D d.now d.answers d.event S).outcome = .completed ∧
            strTruthy d.event.user_id = true) ∧ d.answers.upsert = .ok) ∧
          (d.event.site_id = site_id ∧ eventDate D d.now d.event = date)
      · by_cases hin : d.event.user_id.getD "" ∈ keyUsers S.unique_users site_id date
        · rw [if_neg (fun h => h.2 hin)] at hkey
          obtain ⟨h1, h2⟩ := ih _ (hkey ▸ hnd)
          refine ⟨h1, fun u => ?_⟩
          rw [h2 u, hkey, hans, mem_observedUsers_cons]
          constructor
          · rintro (h | h)
            · exact Or.inl h
            · exact Or.inr (Or.inr h)
          · rintro (h | ⟨_, h⟩ | h)
            · exact Or.inl h
            · left
              have hu : d.event.user_id = some u := h
              rw [hu] at hin
              exact hin
            · exact Or.inr h
        · rw [if_pos ⟨hC, hin⟩] at hkey
          have hnd' : (keyUsers (workerStep D d.now d.answers d.event S).store.unique_users
              site_id date).Nodup := by
            rw [hkey]
            refine List.Nodup.append hnd (List.nodup_singleton _) ?_
            intro x hx hx'
            rw [List.mem_singleton] at hx'
            exact hin (hx' ▸ hx)
          obtain ⟨h1, h2⟩ := ih _ hnd'
          refine ⟨h1, fun u => ?_⟩
          rw [h2 u, hkey, hans, mem_observedUsers_cons, List.mem_append, List.mem_singleton]
          have hsome := strTruthy_getD hC.1.1.2
          constructor
          · rintro ((h | h) | h)
            · exact Or.inl h
            · exact Or.inr (Or.inl ⟨⟨hC.1.1.2, hC.2.1, hC.2.2⟩, by
                show d.event.user_id = some u
                rw [h]
                exact hsome⟩)
            · exact Or.inr (Or.inr h)
          · rintro (h | ⟨_, h⟩ | h)
            · exact Or.inl (Or.inl h)
            · refine Or.inl (Or.inr ?_)
              have hu : d.event.user_id = some u := h
              rw [hu]
              rfl
            · exact Or.inr h
      · rw [if_neg (fun h => hC h.1)] at hkey
        obtain ⟨h1, h2⟩ := ih _ (hkey ▸ hnd)
        refine ⟨h1, fun u => ?_⟩
        rw [h2 u, hkey, hans, mem_observedUsers_cons]
        constructor
        · rintro (h | h)
          · exact Or.inl h
          · exact Or.inr (Or.inr h)
        · rintro (h | ⟨⟨ht, hs, hd⟩, _⟩ | h)
          · exact Or.inl h
          · exact absurd ⟨⟨⟨hA.1, ht⟩, hA.2⟩, hs, hd⟩ hC
          · exact Or.inr h
    · have hans : answered D (d :: ds) S =
          answered D ds (workerStep D d.now d.answers d.event S).store := by
        simp [answered, hA]
      rw [if_neg (fun h => hA ⟨h.1.1.1.1, h.1.1.2⟩)] at hkey
      obtain ⟨h1, h2⟩ := ih _ (hkey ▸ hnd)
      refine ⟨h1, fun u => ?_⟩
      rw [h2 u, hkey, hans]

/-- C3 (as stated) fails: when the store does not answer the unique-user
upsert of an event (worker.js catches the error on the spot and goes on), the
event is processed to its end and carries a user id, yet no mark is left:
one distinct user id observed, `unique_users` 0. -/
theorem C3_failed_upsert_leaves_no_mark :
    processed isoDates [⟨noon, ⟨.ok, .ok, .fault⟩, pageview "e1" "/a" (some "u1")⟩] Store.empty
      = [(pageview "e1" "/a" (some "u1"), some "2025-11-12")] ∧
    (observedUsers (processed isoDates
        [⟨noon, ⟨.ok, .ok, .fault⟩, pageview "e1" "/a" (some "u1")⟩] Store.empty)
      "s1" (some "2025-11-12")).dedup.length = 1 ∧
    countDocuments (run isoDates
        [⟨noon, ⟨.ok, .ok, .fault⟩, pageview "e1" "/a" (some "u1")⟩] Store.empty).unique_users
      "s1" (some "2025-11-12") = 0 ∧
    (run isoDates [⟨noon, ⟨.ok, .ok, .fault⟩, pageview "e1" "/a" (some "u1")⟩]
        Store.empty).stats = [⟨"s1", some "2025-11-12", 1, .num "/a" 1 .nil⟩] := by
  decide

theorem countDocuments_run {τ : Type} (D : JsDate τ) (ds : List Delivery)
    (site_id : String) (date : Option String) :
    countDocuments (run D ds Store.empty).unique_users site_id date =
      (observedUsers (answered D ds Store.empty) site_id date).dedup.length := by
  obtain ⟨hnd, hmem⟩ := keyUsers_run D site_id date ds Store.empty (by
    simp [keyUsers, Store.empty])
  rw [countDocuments_eq_length_keyUsers, ← List.toFinset_card_of_nodup hnd, ← List.card_toFinset]
  congr 1
  ext u
  rw [List.mem_toFinset, List.mem_toFinset, hmem u]
  simp [keyUsers, Store.empty]

/-- Many events of one user: when the processed events that carry a user id,
are filed under a key and had their upsert answered number at least one and
all carry the same user id, `unique_users` of that key is 1. -/
theorem unique_users_eq_one {τ : Type} (D : JsDate τ) (ds : List Delivery)
    (site_id : String) (date : Option String) (u : String)
    (hne : observedUsers (answered D ds Store.empty) site_id date ≠ [])
    (hall : ∀ x ∈ observedUsers (answered D ds Store.empty) site_id date, x = u) :
    countDocuments (run D ds Store.empty).unique_users site_id date = 1 := by
  obtain ⟨hnd, hmem⟩ := keyUsers_run D site_id date ds Store.empty (by
    simp [keyUsers, Store.empty])
  have hset : (keyUsers (run D ds Store.empty).unique_users site_id date).toFinset = {u} := by
    ext x
    rw [List.mem_toFinset, hmem x, Finset.mem_singleton]
    constructor
    · rintro (h | h)
      · simp [keyUsers, Store.empty] at h
      · exact hall x h
    · intro hx
      obtain ⟨y, hy⟩ := List.exists_mem_of_ne_nil _ hne
      right
      rw [hx, ← hall y hy]
      exact hy
  rw [countDocuments_eq_length_keyUsers, ← List.toFinset_card_of_nodup hnd, hset]
  rfl

/-- C3 (amended): after the worker has handled any sequence of deliveries from
the empty store, the number of UniqueUserMark rows of a key `(site_id, date)`,
which is the `unique_users` of `GET /stats`, equals the number of distinct
user ids among the processed events (those whose iteration ran to its end)
that carry a user id, are filed under that key and whose unique-user upsert
the store answered; in particular it is 1 when there is at least one such
event and all of them carry the same user id. -/
theorem C3_unique_users_count {τ : Type} (D : JsDate τ) (ds : List Delivery)
    (site_id : String) (date : Option String) :
    countDocuments (run D ds Store.empty).unique_users site_id date =
      (observedUsers (answered D ds Store.empty) site_id date).dedup.length ∧
    ∀ u : String, observedUsers (answered D ds Store.empty) site_id date ≠ [] →
      (∀ x ∈ observedUsers (answered D ds Store.empty) site_id date, x = u) →
      countDocuments (run D ds Store.empty).unique_users site_id date = 1 :=
  ⟨countDocuments_run D ds site_id date,
    fun u hne hall => unique_users_eq_one D ds site_id date u hne hall⟩

/-- C3 (amended) at three events of the user `u1` on one day, the upsert of
the first of which the store does not answer. -/
theorem C3_unique_users_count_witness :
    observedUsers (answered isoDates
        [⟨noon, ⟨.ok, .ok, .fault⟩, pageview "e1" "/a" (some "u1")⟩,
          deliver (pageview "e2" "/b" (some "u1")), deliver (pageview "e3" "/a" (some "u1"))]
        Store.empty) "s1" (some "2025-11-12") ≠ [] ∧
    (∀ x ∈ observedUsers (answered isoDates
        [⟨noon, ⟨.ok, .ok, .fault⟩, pageview "e1" "/a" (some "u1")⟩,
          deliver (pageview "e2" "/b" (some "u1")), deliver (pageview "e3" "/a" (some "u1"))]
        Store.empty) "s1" (some "2025-11-12"), x = "u1") ∧
    countDocuments (run isoDates
        [⟨noon, ⟨.ok, .ok, .fault⟩, pageview "e1" "/a" (some "u1")⟩,
          deliver (pageview "e2" "/b" (some "u1")), deliver (pageview "e3" "/a" (some "u1"))]
        Store.empty).unique_users "s1" (some "2025-11-12") = 1 :=
  ⟨by decide, by decide,
    (C3_unique_users_count isoDates
      [⟨noon, ⟨.ok, .ok, .fault⟩, pageview "e1" "/a" (some "u1")⟩,
        deliver (pageview "e2" "/b" (some "u1")), deliver (pageview "e3" "/a" (some "u1"))]
      "s1" (some "2025-11-12")).2 "u1" (by decide) (by decide)⟩

/-- When the store answers every unique-user upsert of a run, the events whose
upsert was answered are the processed events. -/
theorem answered_eq_processed {τ : Type} (D : JsDate τ) :
    ∀ (ds : List Delivery) (S : Store), (∀ d ∈ ds, d.answers.upsert = .ok) →
      answered D ds S = processed D ds S := by
  intro ds
  induction ds with
  | nil => intro S _; rfl
  | cons d ds ih =>
    intro S h
    have hd := h d (List.mem_cons_self _ _)
    have hds := ih (workerStep D d.now d.answers d.event S).store
      (fun x hx => h x (List.mem_cons_of_mem _ hx))
    simp only [answered, processed, hd, and_true, hds]

/-! ## Paths that contain a dot -/

/-- C1 at the path `/index.html`: two events of one site and day are both
processed from the empty store, and the stats document then holds the count 2
under `paths["/index"]["html"]`; the paths object has no entry
`/index.html`. -/
theorem C1_dotted_path_is_nested :
    findStat Store.empty.stats "s1" (some "2025-11-12") = none ∧
    processed isoDates [deliver (pageview "e1" "/index.html" none),
        deliver (pageview "e2" "/index.html" none)] Store.empty
      = [(pageview "e1" "/index.html" none, some "2025-11-12"),
         (pageview "e2" "/index.html" none, some "2025-11-12")] ∧
    (findStat (run isoDates [deliver (pageview "e1" "/index.html" none),
        deliver (pageview "e2" "/index.html" none)] Store.empty).stats
        "s1" (some "2025-11-12")).map StatDoc.paths
      = some (.sub "/index" (.num "html" 2 .nil) .nil) ∧
    (findStat (run isoDates [deliver (pageview "e1" "/index.html" none),
        deliver (pageview "e2" "/index.html" none)] Store.empty).stats
        "s1" (some "2025-11-12")).map (fun s => s.paths.get "/index.html")
      = some none := by
  decide

/-- C2 at the path `/index.html`: after one processed event the stats document
has `total_views = 1` while the only entry of its paths object, `/index`,
holds an embedded document and no view count, so the view counts of the
entries sum to 0. -/
theorem C2_dotted_path_breaks_sum :
    (findStat (run isoDates [deliver (pageview "e1" "/index.html" none)] Store.empty).stats
        "s1" (some "2025-11-12")).map
        (fun s => (s.total_views, s.paths.entries, s.paths.viewsSum))
      = some (1, [("/index", .nested (.num "html" 1 .nil))], 0) := by
  decide

/-- C4 at the path `/index.html`: both applications run to their end, the
second leaves the count of marks at 1 and raises `total_views` from 1 to 2,
but `paths["/index.html"]` is undefined before and after it; and at the path
`/a..b` both applications end in the loop-level handler and no stats document
exists afterwards. -/
theorem C4_dotted_path_redelivery :
    (workerStep isoDates noon .allOk (pageview "e1" "/index.html" (some "u1"))
        Store.empty).outcome = .completed ∧
    (workerStep isoDates noon .allOk (pageview "e1" "/index.html" (some "u1"))
        (workerStep isoDates noon .allOk (pageview "e1" "/index.html" (some "u1"))
          Store.empty).store).outcome = .completed ∧
    countDocuments (workerStep isoDates noon .allOk
        (pageview "e1" "/index.html" (some "u1")) Store.empty).store.unique_users
        "s1" (some "2025-11-12") = 1 ∧
    countDocuments (workerStep isoDates noon .allOk
        (pageview "e1" "/index.html" (some "u1"))
        (workerStep isoDates noon .allOk (pageview "e1" "/index.html" (some "u1"))
          Store.empty).store).store.unique_users "s1" (some "2025-11-12") = 1 ∧
    (findStat (workerStep isoDates noon .allOk
        (pageview "e1" "/index.html" (some "u1")) Store.empty).store.stats
        "s1" (some "2025-11-12")).map (fun s => (s.total_views, s.paths.get "/index.html"))
      = some (1, none) ∧
    (findStat (workerStep isoDates noon .allOk
        (pageview "e1" "/index.html" (some "u1"))
        (workerStep isoDates noon .allOk (pageview "e1" "/index.html" (some "u1"))
          Store.empty).store).store.stats
        "s1" (some "2025-11-12")).map (fun s => (s.total_views, s.paths.get "/index.html"))
      = some (2, none) ∧
    (workerStep isoDates noon .allOk (pageview "e1" "/a..b" (some "u1"))
        Store.empty).outcome = .loopError ∧
    (workerStep isoDates noon .allOk (pageview "e1" "/a..b" (some "u1"))
        (workerStep isoDates noon .allOk (pageview "e1" "/a..b" (some "u1"))
          Store.empty).store).store.stats = [] := by
  decide

/-- C9 at the paths `/a` and `/a.b`: whichever event is handled first creates
the field `/a`, as a count or as an embedded document, and the store rejects
the update of the other event, whose iteration ends in the loop-level handler
before its user is marked; the two orders leave different stats documents and
different marks. -/
theorem C9_dotted_paths_do_not_commute :
    (run isoDates [deliver (pageview "e1" "/a" (some "u1")),
        deliver (pageview "e2" "/a.b" (some "u2"))] Store.empty).stats
      = [⟨"s1", some "2025-11-12", 1, .num "/a" 1 .nil⟩] ∧
    (run isoDates [deliver (pageview "e2" "/a.b" (some "u2")),
        deliver (pageview "e1" "/a" (some "u1"))] Store.empty).stats
      = [⟨"s1", some "2025-11-12", 1, .sub "/a" (.num "b" 1 .nil) .nil⟩] ∧
    keyUsers (run isoDates [deliver (pageview "e1" "/a" (some "u1")),
        deliver (pageview "e2" "/a.b" (some "u2"))] Store.empty).unique_users
        "s1" (some "2025-11-12") = ["u1"] ∧
    keyUsers (run isoDates [deliver (pageview "e2" "/a.b" (some "u2")),
        deliver (pageview "e1" "/a" (some "u1"))] Store.empty).unique_users
        "s1" (some "2025-11-12") = ["u2"] := by
  decide

/-! ## The `$inc` operator -/

theorem Doc.leafSum_chain (δ : Int) : ∀ (k : String) (ks : List String),
    (Doc.chain (k :: ks) δ).leafSum = δ := by
  intro k ks
  induction ks generalizing k with
  | nil => simp [Doc.chain, Doc.leafSum]
  | cons k' ks ih => simp [Doc.chain, Doc.leafSum, ih k']

theorem Doc.leafSum_incAt (δ : Int) : ∀ (d : Doc) (ks : List String) (d' : Doc),
    Doc.incAt δ ks d = some d' → d'.leafSum = d.leafSum + δ := by
  intro d
  induction d with
  | nil =>
    intro ks d' h
    cases ks with
    | nil => simp [Doc.incAt] at h
    | cons k ks =>
      simp only [Doc.incAt, Option.some.injEq] at h
      rw [← h, Doc.leafSum_chain]
      simp [Doc.leafSum]
  | num k' n rest ih =>
    intro ks d' h
    cases ks with
    | nil => simp [Doc.incAt] at h
    | cons k ks =>
      simp only [Doc.incAt] at h
      split_ifs at h with h1 h2
      · simp only [Option.some.injEq] at h
        rw [← h]
        simp only [Doc.leafSum]
        omega
      · obtain ⟨r, hr, rfl⟩ := Option.map_eq_some'.mp h
        have := ih _ _ hr
        simp only [Doc.leafSum, this]
        omega
  | sub k' d0 rest ih0 ih =>
    intro ks d' h
    cases ks with
    | nil => simp [Doc.incAt] at h
    | cons k ks =>
      simp only [Doc.incAt] at h
      split_ifs at h with h1 h2
      · obtain ⟨r, hr, rfl⟩ := Option.map_eq_some'.mp h
        have := ih0 _ _ hr
        simp only [Doc.leafSum, this]
        omega
      · obtain ⟨r, hr, rfl⟩ := Option.map_eq_some'.mp h
        have := ih _ _ hr
        simp only [Doc.leafSum, this]
        omega

theorem Doc.leafSum_inc (δ : Int) (p : String) (d d' : Doc) (h : Doc.inc δ p d = some d') :
    d'.leafSum = d.leafSum + δ := by
  unfold Doc.inc at h
  split_ifs at h
  exact Doc.leafSum_incAt δ d _ d' h

theorem Doc.incAt_single (δ : Int) (p : String) : ∀ d : Doc,
    (∀ d0, d.get p ≠ some (.nested d0)) →
    ∃ d', Doc.incAt δ [p] d = some d' ∧
      d'.get p = some (.count (Field.countD (d.get p) + δ)) ∧
      (∀ q, q ≠ p → d'.get q = d.get q) ∧ d'.viewsSum = d.viewsSum + δ := by
  intro d
  induction d with
  | nil =>
    intro _
    refine ⟨.num p δ .nil, rfl, ?_, ?_, ?_⟩
    · simp [Doc.get, Field.countD]
    · intro q hq
      simp [Doc.get, Ne.symm hq]
    · simp [Doc.viewsSum]
  | num k n rest ih =>
    intro hflat
    by_cases hk : k = p
    · subst hk
      refine ⟨.num k (n + δ) rest, by simp [Doc.incAt], ?_, ?_, ?_⟩
      · simp [Doc.get, Field.countD]
      · intro q hq
        simp [Doc.get, Ne.symm hq]
      · simp only [Doc.viewsSum]
        omega
    · have hrest : ∀ d0, rest.get p ≠ some (.nested d0) := by
        intro d0
        have := hflat d0
        simpa [Doc.get, hk] using this
      obtain ⟨r, hr, h1, h2, h3⟩ := ih hrest
      refine ⟨.num k n r, by simp [Doc.incAt, hk, hr], ?_, ?_, ?_⟩
      · simp [Doc.get, hk, h1]
      · intro q hq
        by_cases hkq : k = q
        · simp [Doc.get, hkq]
        · simp [Doc.get, hkq, h2 q hq]
      · simp only [Doc.viewsSum, h3]
        omega
  | sub k d0 rest _ ih =>
    intro hflat
    by_cases hk : k = p
    · exact absurd (by simp [Doc.get, hk]) (hflat d0)
    · have hrest : ∀ d1, rest.get p ≠ some (.nested d1) := by
        intro d1
        have := hflat d1
        simpa [Doc.get, hk] using this
      obtain ⟨r, hr, h1, h2, h3⟩ := ih hrest
      refine ⟨.sub k d0 r, by simp [Doc.incAt, hk, hr], ?_, ?_, ?_⟩
      · simp [Doc.get, hk, h1]
      · intro q hq
        by_cases hkq : k = q
        · simp [Doc.get, hkq]
        · simp [Doc.get, hkq, h2 q hq]
      · simp only [Doc.viewsSum, h3]

theorem Doc.incAt_single_nested (δ : Int) (p : String) : ∀ (d d0 : Doc),
    d.get p = some (.nested d0) → Doc.incAt δ [p] d = none := by
  intro d
  induction d with
  | nil => intro d0 h; simp [Doc.get] at h
  | num k n rest ih =>
    intro d0 h
    by_cases hk : k = p
    · simp [Doc.get, hk] at h
    · simp only [Doc.get, hk, if_false] at h
      simp [Doc.incAt, hk, ih d0 h]
  | sub k d1 rest _ ih =>
    intro d0 h
    by_cases hk : k = p
    · simp [Doc.incAt, hk]
    · simp only [Doc.get, hk, if_false] at h
      simp [Doc.incAt, hk, ih d0 h]

/-- A field the `$inc` operator creates is put after the fields the document
has: the stored order of the paths is the order in which they were first
counted. -/
theorem Doc.fields_incAt_single (δ : Int) (p : String) : ∀ (d d' : Doc),
    Doc.incAt δ [p] d = some d' →
      d'.fields.map Prod.fst =
        if p ∈ d.fields.map Prod.fst then d.fields.map Prod.fst
        else d.fields.map Prod.fst ++ [p] := by
  intro d
  induction d with
  | nil =>
    intro d' h
    simp only [Doc.incAt, Option.some.injEq] at h
    rw [← h]
    simp [Doc.chain, Doc.fields]
  | num k n rest ih =>
    intro d' h
    simp only [Doc.incAt] at h
    split_ifs at h with h1
    · simp only [Option.some.injEq] at h
      rw [← h]
      simp [Doc.fields, h1]
    · obtain ⟨r, hr, rfl⟩ := Option.map_eq_some'.mp h
      have := ih r hr
      simp only [Doc.fields, List.map_cons, this, List.mem_cons]
      by_cases hp : p ∈ rest.fields.map Prod.fst
      · simp [hp]
      · simp [hp, Ne.symm h1]
  | sub k d0 rest _ ih =>
    intro d' h
    simp only [Doc.incAt] at h
    split_ifs at h with h1
    · obtain ⟨r, hr, rfl⟩ := Option.map_eq_some'.mp h
      have := ih r hr
      simp only [Doc.fields, List.map_cons, this, List.mem_cons]
      by_cases hp : p ∈ rest.fields.map Prod.fst
      · simp [hp]
      · simp [hp, Ne.symm h1]

theorem splitDots_of_not_mem : ∀ cs : List Char, '.' ∉ cs → splitDots cs = [cs] := by
  intro cs
  induction cs with
  | nil => intro _; rfl
  | cons c cs ih =>
    intro h
    have hc : c ≠ '.' := fun hc => h (by simp [hc])
    have hcs : '.' ∉ cs := fun hcs => h (List.mem_cons_of_mem _ hcs)
    simp [splitDots, hc, ih hcs]

theorem fieldPath_of_dotFree {p : String} (h : dotFree p) : fieldPath p = [p] := by
  unfold fieldPath
  rw [splitDots_of_not_mem p.data h]
  rfl

theorem Doc.inc_of_dotFree (δ : Int) {p : String} (h : dotFree p) (hne : p ≠ "") (d : Doc) :
    Doc.inc δ p d = Doc.incAt δ [p] d := by
  unfold Doc.inc
  rw [fieldPath_of_dotFree h]
  simp [hne]

/-! ## The stats upsert -/

theorem incStat_some {p : String} {s s' : StatDoc} (h : incStat p s = some s') :
    s'.site_id = s.site_id ∧ s'.date = s.date ∧ s'.total_views = s.total_views + 1 ∧
      Doc.inc 1 p s.paths = some s'.paths := by
  unfold incStat at h
  obtain ⟨d, hd, rfl⟩ := Option.map_eq_some'.mp h
  exact ⟨rfl, rfl, rfl, hd⟩

theorem findStat_cons (s : StatDoc) (rest : List StatDoc) (site_id : String)
    (date : Option String) :
    findStat (s :: rest) site_id date =
      if s.site_id = site_id ∧ s.date = date then some s else findStat rest site_id date := by
  unfold findStat
  rw [List.find?_cons]
  by_cases h : s.site_id = site_id ∧ s.date = date
  · simp [h]
  · rw [if_neg h]
    simp [h]

theorem upsertStat_none (site_id : String) (date : Option String) (p : String) :
    ∀ stats : List StatDoc, incStat p (statOrZero stats site_id date) = none →
      upsertStat site_id date p stats = none := by
  intro stats
  induction stats with
  | nil =>
    intro h
    have h' : incStat p ⟨site_id, date, 0, .nil⟩ = none := h
    simp [upsertStat, h']
  | cons s rest ih =>
    intro h
    unfold statOrZero at h
    rw [findStat_cons] at h
    by_cases hk : s.site_id = site_id ∧ s.date = date
    · rw [if_pos hk] at h
      simp only [Option.getD_some] at h
      simp [upsertStat, hk, h]
    · rw [if_neg hk] at h
      simp [upsertStat, hk, ih h]

theorem upsertStat_some (site_id : String) (date : Option String) (p : String) (s' : StatDoc) :
    ∀ stats : List StatDoc, incStat p (statOrZero stats site_id date) = some s' →
      ∃ stats', upsertStat site_id date p stats = some stats' ∧
        findStat stats' site_id date = some s' ∧
        (∀ site' date', ¬(site' = site_id ∧ date' = date) →
          findStat stats' site' date' = findStat stats site' date') ∧
        (∀ x ∈ stats', x = s' ∨ x ∈ stats) := by
  intro stats
  induction stats with
  | nil =>
    intro h
    have h' : incStat p ⟨site_id, date, 0, .nil⟩ = some s' := h
    obtain ⟨hs, hd, _, _⟩ := incStat_some h'
    refine ⟨[s'], by simp [upsertStat, h'], ?_, ?_, ?_⟩
    · rw [findStat_cons, if_pos ⟨hs, hd⟩]
    · intro site' date' hne
      rw [findStat_cons, if_neg]
      intro hc
      exact hne ⟨hc.1.symm.trans hs, hc.2.symm.trans hd⟩
    · intro x hx
      exact Or.inl (List.mem_singleton.mp hx)
  | cons s rest ih =>
    intro h
    unfold statOrZero at h
    rw [findStat_cons] at h
    by_cases hk : s.site_id = site_id ∧ s.date = date
    · rw [if_pos hk] at h
      simp only [Option.getD_some] at h
      obtain ⟨hs, hd, _, _⟩ := incStat_some h
      refine ⟨s' :: rest, by simp [upsertStat, hk, h], ?_, ?_, ?_⟩
      · rw [findStat_cons, if_pos ⟨hs.trans hk.1, hd.trans hk.2⟩]
      · intro site' date' hne
        rw [findStat_cons, findStat_cons, if_neg, if_neg]
        · intro hc
          exact hne ⟨hc.1.symm.trans hk.1, hc.2.symm.trans hk.2⟩
        · intro hc
          exact hne ⟨hc.1.symm.trans (hs.trans hk.1), hc.2.symm.trans (hd.trans hk.2)⟩
      · intro x hx
        rcases List.mem_cons.mp hx with hx | hx
        · exact Or.inl hx
        · exact Or.inr (List.mem_cons_of_mem _ hx)
    · rw [if_neg hk] at h
      obtain ⟨r, hr, h1, h2, h3⟩ := ih h
      refine ⟨s :: r, by simp [upsertStat, hk, hr], ?_, ?_, ?_⟩
      · rw [findStat_cons, if_neg hk, h1]
      · intro site' date' hne
        rw [findStat_cons, findStat_cons, h2 site' date' hne]
      · intro x hx
        rcases List.mem_cons.mp hx with hx | hx
        · exact Or.inr (hx ▸ List.mem_cons_self _ _)
        · rcases h3 x hx with hx | hx
          · exact Or.inl hx
          · exact Or.inr (List.mem_cons_of_mem _ hx)

theorem findStat_mem {stats : List StatDoc} {site_id : String} {date : Option String}
    {s : StatDoc} (h : findStat stats site_id date = some s) : s ∈ stats :=
  List.mem_of_find?_eq_some h

/-- What one iteration does to the stats collection, read through `findStat`:
an iteration that runs to its end replaces the document of the event's key by
its increment and leaves every other key alone; any other iteration leaves
the collection as it was. -/
theorem workerStep_stats {τ : Type} (D : JsDate τ) (now : String) (a : Answers)
    (e : Event) (S : Store) :
    ((workerStep D now a e S).outcome = .loopError ∧
      (workerStep D now a e S).store.stats = S.stats ∧
      ((a.insert = .ok ∧ a.update = .ok) →
        incStat (pathKey e) (statOrZero S.stats e.site_id (eventDate D now e)) = none)) ∨
    ((workerStep D now a e S).outcome = .completed ∧ (a.insert = .ok ∧ a.update = .ok) ∧
      ∃ s', incStat (pathKey e) (statOrZero S.stats e.site_id (eventDate D now e)) = some s' ∧
        findStat (workerStep D now a e S).store.stats e.site_id (eventDate D now e) = some s' ∧
        (∀ site' date', ¬(site' = e.site_id ∧ date' = eventDate D now e) →
          findStat (workerStep D now a e S).store.stats site' date' =
            findStat S.stats site' date') ∧
        (∀ x ∈ (workerStep D now a e S).store.stats, x = s' ∨ x ∈ S.stats)) := by
  cases hi : a.insert with
  | fault =>
    left
    rw [workerStep_insert_fault D now a e S hi]
    exact ⟨rfl, rfl, fun h => by cases h.1⟩
  | ok =>
    cases hu : a.update with
    | fault =>
      left
      rw [workerStep_rejected D now a e S hi (Or.inl hu)]
      exact ⟨rfl, rfl, fun h => by cases h.2⟩
    | ok =>
      cases hinc : incStat (pathKey e) (statOrZero S.stats e.site_id (eventDate D now e)) with
      | none =>
        left
        rw [workerStep_rejected D now a e S hi (Or.inr (upsertStat_none _ _ _ _ hinc))]
        exact ⟨rfl, rfl, fun _ => rfl⟩
      | some s' =>
        right
        obtain ⟨stats', hup, h1, h2, h3⟩ := upsertStat_some _ _ _ s' _ hinc
        rw [workerStep_accepted D now a e S stats' hi hu hup]
        exact ⟨rfl, ⟨rfl, rfl⟩, s', rfl, h1, h2, h3⟩

/-- In every state the worker reaches from the empty store, whatever the
events, `total_views` of a stats document is the sum of all integer leaves
of its paths document. -/
theorem total_views_eq_leafSum {τ : Type} (D : JsDate τ) (ds : List Delivery) :
    ∀ s ∈ (run D ds Store.empty).stats, s.total_views = s.paths.leafSum := by
  have key : ∀ (ds : List Delivery) (S : Store),
      (∀ s ∈ S.stats, s.total_views = s.paths.leafSum) →
      ∀ s ∈ (run D ds S).stats, s.total_views = s.paths.leafSum := by
    intro ds
    induction ds with
    | nil => intro S h; exact h
    | cons d ds ih =>
      intro S h
      apply ih
      rcases workerStep_stats D d.now d.answers d.event S with ⟨_, hst, _⟩ | ⟨_, _, s', hinc, _, _, hmem⟩
      · rw [hst]
        exact h
      · intro x hx
        rcases hmem x hx with hx | hx
        · subst hx
          obtain ⟨_, _, htv, hp⟩ := incStat_some hinc
          rw [htv, Doc.leafSum_inc 1 _ _ _ hp]
          have hbase : (statOrZero S.stats d.event.site_id
              (eventDate D d.now d.event)).total_views =
              (statOrZero S.stats d.event.site_id (eventDate D d.now d.event)).paths.leafSum := by
            unfold statOrZero
            cases hf : findStat S.stats d.event.site_id (eventDate D d.now d.event) with
            | none => simp [Doc.leafSum]
            | some s0 => exact h s0 (findStat_mem hf)
          rw [hbase]
        · exact h x hx
  exact key ds Store.empty (by simp [Store.empty])

/-! ## Path keys without a dot -/

theorem pathKey_ne_empty (e : Event) : pathKey e ≠ "" := by
  unfold pathKey
  cases hp : e.path with
  | none => simp [strTruthy]
  | some p =>
    by_cases h : p = ""
    · simp [strTruthy, h]
    · simp [strTruthy, h]

theorem pathKey_of_path {e : Event} {p : String} (h : e.path = some p) (hne : p ≠ "") :
    pathKey e = p := by
  simp [pathKey, h, strTruthy, hne]

/-- The increment of a stats document at a path key without a dot: it is
rejected exactly when the field already holds an embedded document, and
otherwise adds one to `total_views` and to the count of that one field. -/
theorem incStat_of_dotFree {p : String} (hp : dotFree p) (hne : p ≠ "") (s : StatDoc) :
    ((∃ d0, s.paths.get p = some (.nested d0)) ∧ incStat p s = none) ∨
    ((∀ d0, s.paths.get p ≠ some (.nested d0)) ∧
      ∃ s', incStat p s = some s' ∧ s'.site_id = s.site_id ∧ s'.date = s.date ∧
        s'.total_views = s.total_views + 1 ∧
        s'.paths.get p = some (.count (Field.countD (s.paths.get p) + 1)) ∧
        (∀ q, q ≠ p → s'.paths.get q = s.paths.get q) ∧
        s'.paths.viewsSum = s.paths.viewsSum + 1) := by
  by_cases hn : ∃ d0, s.paths.get p = some (.nested d0)
  · left
    obtain ⟨d0, hd0⟩ := hn
    refine ⟨⟨d0, hd0⟩, ?_⟩
    unfold incStat
    rw [Doc.inc_of_dotFree 1 hp hne, Doc.incAt_single_nested 1 p _ d0 hd0]
    rfl
  · right
    have hflat : ∀ d0, s.paths.get p ≠ some (.nested d0) := fun d0 h => hn ⟨d0, h⟩
    obtain ⟨d', hd', h1, h2, h3⟩ := Doc.incAt_single 1 p s.paths hflat
    refine ⟨hflat, { s with total_views := s.total_views + 1, paths := d' }, ?_, rfl, rfl, rfl,
      h1, h2, h3⟩
    unfold incStat
    rw [Doc.inc_of_dotFree 1 hp hne, hd']
    rfl

theorem statOrZero_of_findStat {stats : List StatDoc} {site_id : String} {date : Option String}
    {s : StatDoc} (h : findStat stats site_id date = some s) :
    statOrZero stats site_id date = s := by
  simp [statOrZero, h]

/-- When every event of a run has a path key without a dot, every stats
document the run leaves has `total_views` equal to the sum of the view counts
of the entries of its paths object, and no entry holds an embedded document. -/
theorem total_views_eq_viewsSum_of_dotFree {τ : Type} (D : JsDate τ) (ds : List Delivery)
    (hds : ∀ d ∈ ds, dotFree (pathKey d.event)) :
    ∀ s ∈ (run D ds Store.empty).stats,
      s.total_views = s.paths.viewsSum ∧ ∀ q d0, s.paths.get q ≠ some (.nested d0) := by
  have key : ∀ (ds : List Delivery) (S : Store), (∀ d ∈ ds, dotFree (pathKey d.event)) →
      (∀ s ∈ S.stats, s.total_views = s.paths.viewsSum ∧
        ∀ q d0, s.paths.get q ≠ some (.nested d0)) →
      ∀ s ∈ (run D ds S).stats, s.total_views = s.paths.viewsSum ∧
        ∀ q d0, s.paths.get q ≠ some (.nested d0) := by
    intro ds
    induction ds with
    | nil => intro S _ h; exact h
    | cons d ds ih =>
      intro S hfree h
      apply ih _ (fun x hx => hfree x (List.mem_cons_of_mem _ hx))
      have hbase : (statOrZero S.stats d.event.site_id (eventDate D d.now d.event)).total_views =
          (statOrZero S.stats d.event.site_id (eventDate D d.now d.event)).paths.viewsSum ∧
          ∀ q d0, (statOrZero S.stats d.event.site_id (eventDate D d.now d.event)).paths.get q
            ≠ some (.nested d0) := by
        unfold statOrZero
        cases hf : findStat S.stats d.event.site_id (eventDate D d.now d.event) with
        | none => simp [Doc.viewsSum, Doc.get]
        | some s0 => exact h s0 (findStat_mem hf)
      rcases workerStep_stats D d.now d.answers d.event S with
        ⟨_, hst, _⟩ | ⟨_, _, s', hinc, _, _, hmem⟩
      · rw [hst]
        exact h
      · intro x hx
        rcases hmem x hx with hx | hx
        · subst hx
          rcases incStat_of_dotFree (hfree d (List.mem_cons_self _ _)) (pathKey_ne_empty d.event)
            (statOrZero S.stats d.event.site_id (eventDate D d.now d.event)) with
            ⟨_, hnone⟩ | ⟨_, s2, hs2, _, _, htv, hget, hother, hsum⟩
          · rw [hnone] at hinc
            cases hinc
          · rw [hs2] at hinc
            cases hinc
            refine ⟨by rw [htv, hsum, hbase.1], ?_⟩
            intro q d0
            by_cases hq : q = pathKey d.event
            · rw [hq, hget]
              simp
            · rw [hother q hq]
              exact hbase.2 q d0
        · exact h x hx
  exact key ds Store.empty hds (by simp [Store.empty])

/-- Counting on a path without a dot: `N ≥ 1` events that share the site, the
date and the path `p` are all processed to their end when the field `p` of the
key does not hold an embedded document, and they add `N` to `paths[p]` and to
`total_views` of the key. -/
theorem paths_count_of_dotFree {τ : Type} (D : JsDate τ) (site_id : String)
    (date : Option String) (p : String) (hp : dotFree p) (hne : p ≠ "") :
    ∀ (ds : List Delivery) (S : Store), ds ≠ [] →
      (∀ d0, (statOrZero S.stats site_id date).paths.get p ≠ some (.nested d0)) →
      (∀ d ∈ ds, (d.answers.insert = .ok ∧ d.answers.update = .ok) ∧ d.event.site_id = site_id ∧
        eventDate D d.now d.event = date ∧ d.event.path = some p) →
      (processed D ds S).map Prod.fst = ds.map Delivery.event ∧
      ∃ s, findStat (run D ds S).stats site_id date = some s ∧
        s.paths.get p = some (.count
          (Field.countD ((statOrZero S.stats site_id date).paths.get p) + ds.length)) ∧
        s.total_views = (statOrZero S.stats site_id date).total_views + ds.length := by
  intro ds
  induction ds with
  | nil => intro S h; exact absurd rfl h
  | cons d ds ih =>
    intro S _ hflat hall
    obtain ⟨hack, hsite, hdate, hpath⟩ := hall d (List.mem_cons_self _ _)
    have hkey : pathKey d.event = p := pathKey_of_path hpath hne
    rcases incStat_of_dotFree hp hne (statOrZero S.stats site_id date) with
      ⟨⟨d0, hd0⟩, _⟩ | ⟨_, s', hs', _, _, htv, hget, _, _⟩
    · exact absurd hd0 (hflat d0)
    · rcases workerStep_stats D d.now d.answers d.event S with
        ⟨_, _, hnone⟩ | ⟨hdone, _, s2, hinc, hfind, _, _⟩
      · have := hnone hack
        rw [hkey, hsite, hdate, hs'] at this
        cases this
      · rw [hkey, hsite, hdate, hs'] at hinc
        cases hinc
        rw [hsite, hdate] at hfind
        have hproc : processed D (d :: ds) S = (d.event, eventDate D d.now d.event) ::
            processed D ds (workerStep D d.now d.answers d.event S).store := by
          simp [processed, hdone]
        have hrun : run D (d :: ds) S = run D ds (workerStep D d.now d.answers d.event S).store :=
          rfl
        have hbase := statOrZero_of_findStat hfind
        by_cases hds : ds = []
        · subst hds
          refine ⟨by rw [hproc]; simp [processed], s', ?_, ?_, ?_⟩
          · rw [hrun]
            exact hfind
          · rw [hget]
            simp
          · rw [htv]
            simp
        · have hflat' : ∀ d0, (statOrZero (workerStep D d.now d.answers d.event S).store.stats
              site_id date).paths.get p ≠ some (.nested d0) := by
            intro d0
            rw [hbase, hget]
            simp
          obtain ⟨h1, s2, h2, h3, h4⟩ := ih _ hds hflat'
            (fun x hx => hall x (List.mem_cons_of_mem _ hx))
          refine ⟨by rw [hproc, List.map_cons, h1]; rfl, s2, ?_, ?_, ?_⟩
          · rw [hrun]
            exact h2
          · rw [h3, hbase, hget]
            simp only [Field.countD, List.length_cons, Nat.cast_add, Nat.cast_one]
            congr 2
            omega
          · rw [h4, hbase, htv]
            simp only [List.length_cons, Nat.cast_add, Nat.cast_one]
            omega

/-! ## Commuting increments -/

theorem Field.isNested_eq_false_iff (x : Option Field) :
    Field.isNested x = false ↔ ∀ d0, x ≠ some (.nested d0) := by
  cases x with
  | none => simp [Field.isNested]
  | some f =>
    cases f with
    | count n => simp [Field.isNested]
    | nested d => simp [Field.isNested]

/-- What an iteration on an event whose path key has no dot does to the stats
collection as the reporting service reads it. -/
theorem workerStep_observe {τ : Type} (D : JsDate τ) (d : Delivery) (S : Store)
    (hp : dotFree (pathKey d.event)) :
    ((workerStep D d.now d.answers d.event S).outcome = .completed ↔ accepts D d S) ∧
    (∀ site' date',
      (findStat (workerStep D d.now d.answers d.event S).store.stats site' date').isSome = true ↔
        (findStat S.stats site' date').isSome = true ∨
          (accepts D d S ∧ site' = d.event.site_id ∧ date' = eventDate D d.now d.event)) ∧
    (∀ site' date',
      totalViews (workerStep D d.now d.answers d.event S).store.stats site' date' =
        totalViews S.stats site' date' +
          if accepts D d S ∧ site' = d.event.site_id ∧ date' = eventDate D d.now d.event
          then 1 else 0) ∧
    (∀ site' date' q,
      pathField (workerStep D d.now d.answers d.event S).store.stats site' date' q =
        if accepts D d S ∧ (site' = d.event.site_id ∧ date' = eventDate D d.now d.event) ∧
            q = pathKey d.event
        then some (.count (Field.countD (pathField S.stats site' date' q) + 1))
        else pathField S.stats site' date' q) := by
  rcases workerStep_stats D d.now d.answers d.event S with
    ⟨hout, hst, hnone⟩ | ⟨hout, hack, s', hinc, hfind, hother, _⟩
  · have hna : ¬ accepts D d S := by
      rintro ⟨hack, hflat⟩
      rcases incStat_of_dotFree hp (pathKey_ne_empty d.event)
        (statOrZero S.stats d.event.site_id (eventDate D d.now d.event)) with
        ⟨⟨d0, hd0⟩, _⟩ | ⟨_, s', hs', _⟩
      · exact (Field.isNested_eq_false_iff _).mp hflat d0 hd0
      · rw [hnone hack] at hs'
        cases hs'
    refine ⟨?_, ?_, ?_, ?_⟩
    · rw [hout]
      exact ⟨fun h => (by cases h), fun h => absurd h hna⟩
    · intro site' date'
      rw [hst]
      simp [hna]
    · intro site' date'
      rw [hst]
      simp [hna]
    · intro site' date' q
      rw [hst]
      simp [hna]
  · rcases incStat_of_dotFree hp (pathKey_ne_empty d.event)
      (statOrZero S.stats d.event.site_id (eventDate D d.now d.event)) with
      ⟨_, hnone⟩ | ⟨hflat, s2, hs2, _, _, htv, hget, hoth, _⟩
    · rw [hnone] at hinc
      cases hinc
    · rw [hs2] at hinc
      cases hinc
      have hacc : accepts D d S := ⟨hack, (Field.isNested_eq_false_iff _).mpr hflat⟩
      refine ⟨?_, ?_, ?_, ?_⟩
      · rw [hout]
        exact ⟨fun _ => hacc, fun _ => rfl⟩
      · intro site' date'
        by_cases hk : site' = d.event.site_id ∧ date' = eventDate D d.now d.event
        · rw [hk.1, hk.2, hfind]
          simp [hacc]
        · rw [hother site' date' hk]
          simp [hk]
      · intro site' date'
        by_cases hk : site' = d.event.site_id ∧ date' = eventDate D d.now d.event
        · rw [hk.1, hk.2]
          unfold totalViews
          rw [statOrZero_of_findStat hfind, htv]
          simp [hacc]
        · unfold totalViews statOrZero
          rw [hother site' date' hk]
          simp [hk]
      · intro site' date' q
        by_cases hk : site' = d.event.site_id ∧ date' = eventDate D d.now d.event
        · rw [hk.1, hk.2]
          unfold pathField
          rw [statOrZero_of_findStat hfind]
          by_cases hq : q = pathKey d.event
          · rw [hq, hget]
            simp [hacc]
          · rw [hoth q hq]
            simp [hq]
        · unfold pathField statOrZero
          rw [hother site' date' hk]
          simp [hk]

/-- Whether the store accepts a delivery does not depend on a delivery handled
before it, when both path keys have no dot. -/
theorem accepts_after {τ : Type} (D : JsDate τ) (d₁ d₂ : Delivery) (S : Store)
    (h₁ : dotFree (pathKey d₁.event)) :
    accepts D d₂ (workerStep D d₁.now d₁.answers d₁.event S).store ↔ accepts D d₂ S := by
  obtain ⟨_, _, _, hpf⟩ := workerStep_observe D d₁ S h₁
  unfold accepts
  rw [hpf]
  by_cases hc : accepts D d₁ S ∧
      (d₂.event.site_id = d₁.event.site_id ∧
        eventDate D d₂.now d₂.event = eventDate D d₁.now d₁.event) ∧
      pathKey d₂.event = pathKey d₁.event
  · rw [if_pos hc]
    have h := hc.1.2
    rw [← hc.2.1.1, ← hc.2.1.2, ← hc.2.2] at h
    constructor
    · rintro ⟨a, _⟩
      exact ⟨a, h⟩
    · rintro ⟨a, _⟩
      exact ⟨a, rfl⟩
  · rw [if_neg hc]

theorem mem_keyUsers_workerStep {τ : Type} (D : JsDate τ) (d : Delivery) (S : Store)
    (site_id : String) (date : Option String) (u : String) :
    u ∈ keyUsers (workerStep D d.now d.answers d.event S).store.unique_users site_id date ↔
      u ∈ keyUsers S.unique_users site_id date ∨
        (((((workerStep D d.now d.answers d.event S).outcome = .completed ∧
              strTruthy d.event.user_id = true) ∧ d.answers.upsert = .ok) ∧
            (d.event.site_id = site_id ∧ eventDate D d.now d.event = date)) ∧
          d.event.user_id.getD "" = u) := by
  rw [keyUsers_workerStep]
  by_cases hC : (((workerStep D d.now d.answers d.event S).outcome = .completed ∧
        strTruthy d.event.user_id = true) ∧ d.answers.upsert = .ok) ∧
      (d.event.site_id = site_id ∧ eventDate D d.now d.event = date)
  · by_cases hin : d.event.user_id.getD "" ∈ keyUsers S.unique_users site_id date
    · rw [if_neg (fun h => h.2 hin)]
      constructor
      · exact fun h => Or.inl h
      · rintro (h | ⟨_, h⟩)
        · exact h
        · exact h ▸ hin
    · rw [if_pos ⟨hC, hin⟩, List.mem_append, List.mem_singleton]
      constructor
      · rintro (h | h)
        · exact Or.inl h
        · exact Or.inr ⟨hC, h.symm⟩
      · rintro (h | ⟨_, h⟩)
        · exact Or.inl h
        · exact Or.inr h.symm
  · rw [if_neg (fun h => hC h.1)]
    constructor
    · exact fun h => Or.inl h
    · rintro (h | ⟨h, _⟩)
      · exact h
      · exact absurd h hC

theorem incField_comm (g : Option Field) (A B : Prop) [Decidable A] [Decidable B] :
    (if B then some (Field.count (Field.countD
        (if A then some (Field.count (Field.countD g + 1)) else g) + 1))
      else (if A then some (Field.count (Field.countD g + 1)) else g)) =
    (if A then some (Field.count (Field.countD
        (if B then some (Field.count (Field.countD g + 1)) else g) + 1))
      else (if B then some (Field.count (Field.countD g + 1)) else g)) := by
  by_cases hA : A <;> by_cases hB : B <;> simp [hA, hB, Field.countD]

/-- Order independence for path keys without a dot: the two orders of handling
two deliveries leave the same stats collection, read key by key (existence of
the document, `total_views`, every `paths[q]`), and the same marks. -/
theorem workerStep_comm_of_dotFree {τ : Type} (D : JsDate τ) (d₁ d₂ : Delivery) (S : Store)
    (h₁ : dotFree (pathKey d₁.event)) (h₂ : dotFree (pathKey d₂.event)) :
    (∀ site_id date,
      ((findStat (run D [d₁, d₂] S).stats site_id date).isSome = true ↔
        (findStat (run D [d₂, d₁] S).stats site_id date).isSome = true) ∧
      totalViews (run D [d₁, d₂] S).stats site_id date =
        totalViews (run D [d₂, d₁] S).stats site_id date ∧
      ∀ q, pathField (run D [d₁, d₂] S).stats site_id date q =
        pathField (run D [d₂, d₁] S).stats site_id date q) ∧
    (∀ site_id date u,
      u ∈ keyUsers (run D [d₁, d₂] S).unique_users site_id date ↔
        u ∈ keyUsers (run D [d₂, d₁] S).unique_users site_id date) := by
  have ha₂ := accepts_after D d₁ d₂ S h₁
  have ha₁ := accepts_after D d₂ d₁ S h₂
  obtain ⟨c₁, e₁, t₁, f₁⟩ := workerStep_observe D d₁ S h₁
  obtain ⟨c₂, e₂, t₂, f₂⟩ := workerStep_observe D d₂ S h₂
  obtain ⟨c₁₂, e₁₂, t₁₂, f₁₂⟩ :=
    workerStep_observe D d₂ (workerStep D d₁.now d₁.answers d₁.event S).store h₂
  obtain ⟨c₂₁, e₂₁, t₂₁, f₂₁⟩ :=
    workerStep_observe D d₁ (workerStep D d₂.now d₂.answers d₂.event S).store h₁
  have hrun₁ : run D [d₁, d₂] S = (workerStep D d₂.now d₂.answers d₂.event
      (workerStep D d₁.now d₁.answers d₁.event S).store).store := rfl
  have hrun₂ : run D [d₂, d₁] S = (workerStep D d₁.now d₁.answers d₁.event
      (workerStep D d₂.now d₂.answers d₂.event S).store).store := rfl
  rw [hrun₁, hrun₂]
  refine ⟨fun site_id date => ⟨?_, ?_, fun q => ?_⟩, fun site_id date u => ?_⟩
  · rw [e₁₂, e₂₁, e₁, e₂, ha₁, ha₂]
    tauto
  · rw [t₁₂, t₂₁, t₁, t₂]
    simp only [ha₁, ha₂]
    omega
  · rw [f₁₂, f₂₁, f₁, f₂]
    simp only [ha₁, ha₂]
    exact incField_comm _ _ _
  · simp only [mem_keyUsers_workerStep, c₁₂, c₂₁, c₁, c₂, ha₁, ha₂]
    exact or_right_comm

/-! ## Consequences for single keys -/

/-- Counting on a path without a dot, from a store that has no stats
document for the key: after `N ≥ 1` processed events sharing the site, the
date and the path `p`, `paths[p] = N` and `total_views = N`. -/
theorem paths_count_fresh_key {τ : Type} (D : JsDate τ) (site_id : String)
    (date : Option String) (p : String) (hp : dotFree p) (hne : p ≠ "")
    (ds : List Delivery) (S : Store) (hds : ds ≠ [])
    (hS : findStat S.stats site_id date = none)
    (hall : ∀ d ∈ ds, (d.answers.insert = .ok ∧ d.answers.update = .ok) ∧
      d.event.site_id = site_id ∧
      eventDate D d.now d.event = date ∧ d.event.path = some p) :
    (processed D ds S).map Prod.fst = ds.map Delivery.event ∧
    ∃ s, findStat (run D ds S).stats site_id date = some s ∧
      s.paths.get p = some (.count ds.length) ∧ s.total_views = ds.length := by
  have hzero : statOrZero S.stats site_id date = ⟨site_id, date, 0, .nil⟩ := by
    simp [statOrZero, hS]
  obtain ⟨h1, s, h2, h3, h4⟩ := paths_count_of_dotFree D site_id date p hp hne ds S hds
    (by rw [hzero]; simp [Doc.get]) hall
  refine ⟨h1, s, h2, ?_, ?_⟩
  · rw [h3, hzero]
    simp [Doc.get, Field.countD]
  · rw [h4, hzero]
    simp

theorem upsertUser_idem (s : String) (d : Option String) (u fs fs' : String)
    (marks : List UserMark) :
    upsertUser s d u fs' (upsertUser s d u fs marks) = upsertUser s d u fs marks := by
  by_cases hany : marks.any (fun m => decide (m.site_id = s ∧ m.date = d ∧ m.user_id = u)) = true
  · have h : upsertUser s d u fs marks = marks := by
      unfold upsertUser
      rw [if_pos hany]
    rw [h]
    unfold upsertUser
    rw [if_pos hany]
  · have h : upsertUser s d u fs marks = marks ++ [⟨s, d, u, fs⟩] := by
      unfold upsertUser
      rw [if_neg hany]
    rw [h]
    unfold upsertUser
    rw [if_pos]
    simp

/-- Redelivery for a path key without a dot: when an application of the
iteration to a delivery runs to its end, a second application of the same
delivery runs to its end as well, leaves the marks as they are, and adds
exactly one to `total_views` and to `paths[path]` of the event's key. -/
theorem redelivery_of_dotFree {τ : Type} (D : JsDate τ) (d : Delivery) (S : Store)
    (hp : dotFree (pathKey d.event))
    (hdone : (workerStep D d.now d.answers d.event S).outcome = .completed) :
    (workerStep D d.now d.answers d.event
      (workerStep D d.now d.answers d.event S).store).outcome = .completed ∧
    (workerStep D d.now d.answers d.event (workerStep D d.now d.answers d.event S).store).store.unique_users
      = (workerStep D d.now d.answers d.event S).store.unique_users ∧
    totalViews (workerStep D d.now d.answers d.event
        (workerStep D d.now d.answers d.event S).store).store.stats
        d.event.site_id (eventDate D d.now d.event) =
      totalViews (workerStep D d.now d.answers d.event S).store.stats
        d.event.site_id (eventDate D d.now d.event) + 1 ∧
    ∃ n : Int,
      pathField (workerStep D d.now d.answers d.event S).store.stats
        d.event.site_id (eventDate D d.now d.event) (pathKey d.event) = some (.count n) ∧
      pathField (workerStep D d.now d.answers d.event
        (workerStep D d.now d.answers d.event S).store).store.stats
        d.event.site_id (eventDate D d.now d.event) (pathKey d.event) = some (.count (n + 1)) := by
  obtain ⟨c₁, _, _, f₁⟩ := workerStep_observe D d S hp
  obtain ⟨c₂, _, t₂, f₂⟩ := workerStep_observe D d (workerStep D d.now d.answers d.event S).store hp
  have hacc : accepts D d S := c₁.mp hdone
  have hacc' : accepts D d (workerStep D d.now d.answers d.event S).store :=
    (accepts_after D d d S hp).mpr hacc
  have hdone' := c₂.mpr hacc'
  refine ⟨hdone', ?_, ?_, ?_⟩
  · rw [workerStep_unique_users D d.now d.answers d.event (workerStep D d.now d.answers d.event S).store,
      workerStep_unique_users D d.now d.answers d.event S]
    by_cases hu : strTruthy d.event.user_id = true ∧ d.answers.upsert = .ok
    · rw [if_pos ⟨⟨hdone', hu.1⟩, hu.2⟩, if_pos ⟨⟨hdone, hu.1⟩, hu.2⟩, upsertUser_idem]
    · rw [if_neg (fun h => hu ⟨h.1.2, h.2⟩), if_neg (fun h => hu ⟨h.1.2, h.2⟩)]
  · rw [t₂, if_pos ⟨hacc', rfl, rfl⟩]
  · refine ⟨Field.countD (pathField S.stats d.event.site_id (eventDate D d.now d.event)
      (pathKey d.event)) + 1, ?_, ?_⟩
    · rw [f₁, if_pos ⟨hacc, ⟨rfl, rfl⟩, rfl⟩]
    · rw [f₂, if_pos ⟨hacc', ⟨rfl, rfl⟩, rfl⟩, f₁, if_pos ⟨hacc, ⟨rfl, rfl⟩, rfl⟩]
      rfl

/-! ## No field of the paths object is named by a dotted path -/

theorem Doc.get_eq_none_of_not_mem_keys (p : String) : ∀ d : Doc, p ∉ d.keys → d.get p = none := by
  intro d
  induction d with
  | nil => intro _; rfl
  | num k n rest ih =>
    intro h
    have hk : k ≠ p := fun hk => h (by simp [Doc.keys, hk])
    have hr : p ∉ rest.keys := fun hr => h (by simp [Doc.keys, hr])
    simp [Doc.get, hk, ih hr]
  | sub k d0 rest _ ih =>
    intro h
    have hk : k ≠ p := fun hk => h (by simp [Doc.keys, hk])
    have hr : p ∉ rest.keys := fun hr => h (by simp [Doc.keys, hr])
    simp [Doc.get, hk, ih hr]

theorem Doc.keys_chain (δ : Int) (k : String) (ks : List String) :
    (Doc.chain (k :: ks) δ).keys = [k] := by
  cases ks with
  | nil => rfl
  | cons k' ks => rfl

theorem Doc.keys_incAt (δ : Int) (k : String) (ks : List String) : ∀ (d d' : Doc),
    Doc.incAt δ (k :: ks) d = some d' → ∀ x ∈ d'.keys, x ∈ d.keys ∨ x = k := by
  intro d
  induction d with
  | nil =>
    intro d' h x hx
    simp only [Doc.incAt, Option.some.injEq] at h
    rw [← h, Doc.keys_chain] at hx
    exact Or.inr (List.mem_singleton.mp hx)
  | num k' n rest ih =>
    intro d' h x hx
    simp only [Doc.incAt] at h
    split_ifs at h with h1 h2
    · simp only [Option.some.injEq] at h
      rw [← h] at hx
      exact Or.inl hx
    · obtain ⟨r, hr, rfl⟩ := Option.map_eq_some'.mp h
      rcases List.mem_cons.mp hx with hx | hx
      · exact Or.inl (by simp [Doc.keys, hx])
      · rcases ih r hr x hx with hx | hx
        · exact Or.inl (by simp [Doc.keys, hx])
        · exact Or.inr hx
  | sub k' d0 rest _ ih =>
    intro d' h x hx
    simp only [Doc.incAt] at h
    split_ifs at h with h1 h2
    · obtain ⟨r, _, rfl⟩ := Option.map_eq_some'.mp h
      exact Or.inl hx
    · obtain ⟨r, hr, rfl⟩ := Option.map_eq_some'.mp h
      rcases List.mem_cons.mp hx with hx | hx
      · exact Or.inl (by simp [Doc.keys, hx])
      · rcases ih r hr x hx with hx | hx
        · exact Or.inl (by simp [Doc.keys, hx])
        · exact Or.inr hx

theorem not_mem_of_mem_splitDots : ∀ (cs c : List Char), c ∈ splitDots cs → '.' ∉ c := by
  intro cs
  induction cs with
  | nil =>
    intro c hc
    simp only [splitDots, List.mem_singleton] at hc
    rw [hc]
    exact List.not_mem_nil _
  | cons a cs ih =>
    intro c hc
    unfold splitDots at hc
    split_ifs at hc with ha
    · rcases List.mem_cons.mp hc with hc | hc
      · rw [hc]
        exact List.not_mem_nil _
      · exact ih c hc
    · cases hsp : splitDots cs with
      | nil =>
        rw [hsp] at hc
        simp only [List.mem_singleton] at hc
        rw [hc]
        simpa using Ne.symm ha
      | cons h t =>
        rw [hsp] at hc ih
        rcases List.mem_cons.mp hc with hc | hc
        · rw [hc]
          intro hmem
          rcases List.mem_cons.mp hmem with hmem | hmem
          · exact ha hmem.symm
          · exact ih h (List.mem_cons_self _ _) hmem
        · exact ih c (List.mem_cons_of_mem _ hc)

theorem dotFree_of_mem_fieldPath {p k : String} (h : k ∈ fieldPath p) : dotFree k := by
  unfold fieldPath at h
  obtain ⟨c, hc, rfl⟩ := List.mem_map.mp h
  exact not_mem_of_mem_splitDots p.data c hc

theorem Doc.keys_inc (δ : Int) (p : String) (d d' : Doc) (h : Doc.inc δ p d = some d') :
    ∀ x ∈ d'.keys, x ∈ d.keys ∨ dotFree x := by
  unfold Doc.inc at h
  split_ifs at h
  cases hfp : fieldPath p with
  | nil =>
    rw [hfp] at h
    simp [Doc.incAt] at h
  | cons k ks =>
    rw [hfp] at h
    intro x hx
    rcases Doc.keys_incAt δ k ks d d' h x hx with hx | hx
    · exact Or.inl hx
    · right
      rw [hx]
      exact dotFree_of_mem_fieldPath (by rw [hfp]; exact List.mem_cons_self _ _)

/-- In every state the worker reaches from the empty store, the fields of a
paths object have names without a dot; hence for a path `p` that contains a
dot `paths[p]` is undefined, however many events with that path were
processed. -/
theorem dotted_path_never_counted {τ : Type} (D : JsDate τ) (ds : List Delivery) (p : String)
    (hp : ¬ dotFree p) :
    ∀ s ∈ (run D ds Store.empty).stats, s.paths.get p = none := by
  have key : ∀ (ds : List Delivery) (S : Store),
      (∀ s ∈ S.stats, ∀ x ∈ s.paths.keys, dotFree x) →
      ∀ s ∈ (run D ds S).stats, ∀ x ∈ s.paths.keys, dotFree x := by
    intro ds
    induction ds with
    | nil => intro S h; exact h
    | cons d ds ih =>
      intro S h
      apply ih
      rcases workerStep_stats D d.now d.answers d.event S with
        ⟨_, hst, _⟩ | ⟨_, _, s', hinc, _, _, hmem⟩
      · rw [hst]
        exact h
      · intro y hy
        rcases hmem y hy with hy | hy
        · subst hy
          obtain ⟨_, _, _, hpaths⟩ := incStat_some hinc
          intro x hx
          rcases Doc.keys_inc 1 _ _ _ hpaths x hx with hx | hx
          · unfold statOrZero at hx
            cases hf : findStat S.stats d.event.site_id (eventDate D d.now d.event) with
            | none =>
              rw [hf] at hx
              simp [Doc.keys] at hx
            | some s0 =>
              rw [hf] at hx
              exact h s0 (findStat_mem hf) x hx
          · exact hx
        · exact h y hy
  intro s hs
  apply Doc.get_eq_none_of_not_mem_keys
  intro hmem
  exact hp (key ds Store.empty (by simp [Store.empty]) s hs p hmem)

end Analytics
